import Mathlib

/-!
# Verification of the rust-console-game simulation core

Shallow embedding of the entity-component simulation engine of
`rust-console-game` (crates `game` and `rs-sdk`): the `World` component
store, the five-system pipeline (Move, Lifetime, Collision, EnergyReload,
Explode), the entity factories, and the binary state codec.

Conventions of the embedding:
* Rust `u32`/`u8` values are modelled as `Nat`.  All coordinates are bounded
  by the board dimensions (which come from a `u16` terminal size), so `u32`
  addition never wraps on reachable values; guarded `u32` subtraction in the
  source (`if self.y > amount { y -= amount } else { invalid = true }`) is
  embedded with the same guard, so truncated `Nat` subtraction is never hit
  on the unguarded side.
* Rust `panic!` / out-of-range `unwrap` is modelled by `Option`: `none`
  means the process aborts and no successor world exists.
* Rust `Vec` indexing is embedded with `List.getD` / `List.set`; every use
  relevant to a claim is in range (component arrays share their length).
-/

namespace RustConsoleGame

/-- `rs-sdk/src/dir.rs` `Dir`. -/
inductive Dir where
  | None
  | Up
  | Down
  | Left
  | Right
deriving DecidableEq, Repr

/-- `Dir::opposite`. -/
def Dir.opposite : Dir → Dir
  | .Up => .Down
  | .Down => .Up
  | .Left => .Right
  | .Right => .Left
  | .None => .None

/-- `Dir::as_num`. -/
def Dir.asNum : Dir → Nat
  | .None => 0
  | .Up => 1
  | .Down => 2
  | .Left => 3
  | .Right => 4

/-- `Dir::from_num`: indexes the `DIRS` array; `none` models the
index-out-of-range panic for codes `≥ 5`. -/
def Dir.fromNum : Nat → Option Dir
  | 0 => some .None
  | 1 => some .Up
  | 2 => some .Down
  | 3 => some .Left
  | 4 => some .Right
  | _ => Option.none

/-- `game/src/pos.rs` `Pos`. -/
structure Pos where
  x : Nat
  y : Nat
  invalid : Bool
deriving DecidableEq, Repr

/-- `Pos::nil`. -/
def Pos.nil : Pos := ⟨0, 0, true⟩

/-- `Pos::moved`: a new position moved `amount` units in direction `dir`.
The borrow of the guarded subtraction is kept; the returned `invalid` flag
is recomputed from scratch (the receiver's flag is dropped). -/
def Pos.moved (p : Pos) (amount : Nat) (dir : Dir) : Pos :=
  match dir with
  | .Up => if p.y > amount then ⟨p.x, p.y - amount, false⟩ else ⟨p.x, p.y, true⟩
  | .Down => ⟨p.x, p.y + amount, false⟩
  | .Left => if p.x > amount then ⟨p.x - amount, p.y, false⟩ else ⟨p.x, p.y, true⟩
  | .Right => ⟨p.x + amount, p.y, false⟩
  | .None => ⟨p.x, p.y, false⟩

/-- `Pos::does_hit`: coordinate equality, ignoring the `invalid` flag. -/
def Pos.doesHit (p q : Pos) : Bool :=
  p.x == q.x && p.y == q.y

/-- `game/src/lib.rs` `Lifetime`. -/
inductive Lifetime where
  | Solid
  | Permanent
  | Temporary (n : Nat)
deriving DecidableEq, Repr

/-- `game/src/weapon.rs` `Weapon`. -/
inductive Weapon where
  | Missile
  | Ray
deriving DecidableEq, Repr

/-- `Weapon::next`. -/
def Weapon.next : Weapon → Weapon
  | .Missile => .Ray
  | .Ray => .Missile

/-- `game/src/lib.rs` `Sprite`. -/
structure Sprite where
  frameNum : Nat
  colorIdx : Nat
  isBold : Bool
  textureVertical : List String
  textureHorizontal : List String
  textureExplosion : List (Option String)
deriving DecidableEq, Repr

def Sprite.nil : Sprite := ⟨0, 0, false, [], [], []⟩

-- Constants from game/src/lib.rs
def PLAYER_LIVES : Nat := 10
def MAX_ENERGY : Nat := 100
def LIFETIME_RAY : Nat := 10
def EXPLODE_DURATION : Nat := 2
def MISSILE_MIN_RANGE : Nat := 8
def ENERGY_MISSILE : Nat := 3
def ENERGY_RAY : Nat := 25
def ENERGY_SHIELD : Nat := 3
def ENERGY_EVERY : Nat := 5

/-- `game/src/lib.rs` `World`: parallel component arrays keyed by entity id,
plus the static board/round fields. -/
structure World where
  width : Nat
  height : Nat
  player1 : Nat
  player2 : Nat
  p1Lives : Nat
  p2Lives : Nat
  missileRangeHorizontal : Nat
  missileRangeVertical : Nat
  name : List String
  alive : List Bool
  lifetime : List Lifetime
  sprite : List Sprite
  velocity : List (Nat × Dir)
  position : List (List Pos)
  energy : List Nat
  shield : List Bool
  bounce : List Bool
  explode : List (Bool × Bool)
  activeWeapon : List (Option Weapon)
deriving DecidableEq, Repr

/-- The obstacle test inside `World::is_on_board`: does `pos` coincide with
the first cell of any `Solid` entity. -/
def World.solidHit (w : World) (pos : Pos) : Bool :=
  (List.range w.lifetime.length).any fun i =>
    (w.lifetime.getD i .Permanent == .Solid)
      && ((w.position.getD i []).getD 0 Pos.nil).doesHit pos

/-- `World::is_on_board`. -/
def World.isOnBoard (w : World) (pos : Pos) : Bool :=
  let xFit := !pos.invalid && decide (1 ≤ pos.x) && decide (pos.x < w.width - 1)
  if !xFit then false
  else
    let yFit := decide (2 ≤ pos.y) && decide (pos.y < w.height - 2)
    if !yFit then false
    else !(w.solidHit pos)

/-- `alive_entities`: entity ids of the living entities. -/
def aliveEntities (w : World) : List Nat :=
  (List.range w.alive.length).filter fun i => w.alive.getD i false

/-- `new_player`: appends a full component row, returns the new id. -/
def newPlayer (w : World) (name texture : String) (colorIdx : Nat) : World × Nat :=
  let id := w.name.length
  ({ w with
      name := w.name ++ [name]
      alive := w.alive ++ [true]
      lifetime := w.lifetime ++ [.Permanent]
      velocity := w.velocity ++ [(1, .None)]
      sprite := w.sprite ++
        [⟨0, colorIdx, true, [texture], [texture], [Option.none]⟩]
      energy := w.energy ++ [MAX_ENERGY]
      shield := w.shield ++ [false]
      bounce := w.bounce ++ [true]
      explode := w.explode ++ [(false, false)]
      activeWeapon := w.activeWeapon ++ [some .Missile]
      position := w.position ++ [[Pos.nil]] }, id)

/-- `new_missile`: rejects creation (returning the world unchanged) when the
trailing cell is off-board; `none` models the `Dir::None` panic. -/
def newMissile (w : World) (startPos : Pos) (dir : Dir) (colorIdx : Nat) :
    Option World :=
  let pos2 := startPos.moved 1 dir
  if !(w.isOnBoard pos2) then some w
  else
    match dir with
    | .None => Option.none
    | _ =>
      let range := match dir with
        | .Up | .Down => w.missileRangeVertical
        | _ => w.missileRangeHorizontal
      some { w with
        name := w.name ++ ["Missile " ++ toString w.name.length]
        alive := w.alive ++ [true]
        lifetime := w.lifetime ++ [.Temporary range]
        position := w.position ++ [[startPos, pos2]]
        velocity := w.velocity ++ [(2, dir)]
        sprite := w.sprite ++ [⟨0, colorIdx, false, ["*"], ["*"], [some "#"]⟩]
        energy := w.energy ++ [0]
        shield := w.shield ++ [false]
        bounce := w.bounce ++ [false]
        explode := w.explode ++ [(true, false)]
        activeWeapon := w.activeWeapon ++ [Option.none] }

/-- The position-building loop of `new_ray`: push the current cell, advance
one step, stop early when the next cell leaves the board. -/
def rayWalk (w : World) (dir : Dir) : Nat → Pos → List Pos
  | 0, _ => []
  | n + 1, p =>
    let q := p.moved 1 dir
    if w.isOnBoard q then p :: rayWalk w dir n q else [p]

/-- `new_ray`. -/
def newRay (w : World) (startPos : Pos) (dir : Dir) (colorIdx : Nat) : World :=
  let distToEdge : Nat := match dir with
    | .Left => startPos.x - 1
    | .Right => w.width - 2 - startPos.x
    | .Up => startPos.y - 2
    | .Down => w.height - 2 - startPos.y - 1
    | .None => 0
  { w with
      position := w.position ++ [rayWalk w dir distToEdge startPos]
      name := w.name ++ ["Ray " ++ toString w.name.length]
      alive := w.alive ++ [true]
      lifetime := w.lifetime ++ [.Temporary LIFETIME_RAY]
      velocity := w.velocity ++ [(1, dir)]
      sprite := w.sprite ++ [⟨0, colorIdx, false, ["|"], ["-"], [Option.none]⟩]
      energy := w.energy ++ [0]
      shield := w.shield ++ [true]
      bounce := w.bounce ++ [false]
      explode := w.explode ++ [(false, false)]
      activeWeapon := w.activeWeapon ++ [Option.none] }

/-- `new_bar`. -/
def newBar (w : World) (startPos : Pos) (dir : Dir) : World :=
  { w with
      name := w.name ++ ["Bar " ++ toString w.name.length]
      alive := w.alive ++ [true]
      lifetime := w.lifetime ++ [.Solid]
      position := w.position ++ [[startPos]]
      velocity := w.velocity ++ [(0, dir)]
      sprite := w.sprite ++ [⟨0, 0, false, ["┃"], ["━"], [some "#"]⟩]
      energy := w.energy ++ [0]
      shield := w.shield ++ [true]
      bounce := w.bounce ++ [false]
      explode := w.explode ++ [(false, false)]
      activeWeapon := w.activeWeapon ++ [Option.none] }

/-- One cell's walk inside `move_system`: advance `p` one unit at a time,
`n` times, in direction `dir`, validating each intermediate cell with
`is_on_board`; `none` when some step leaves the board. -/
def walk (w : World) (dir : Dir) : Nat → Pos → Option Pos
  | 0, p => some p
  | n + 1, p =>
    if w.isOnBoard (p.moved 1 dir) then walk w dir n (p.moved 1 dir) else Option.none

/-- Set the `invalid` flag of a cell (`w.position[entity_id][idx].invalid = true`). -/
def flagInvalid (p : Pos) : Pos := { p with invalid := true }

/-- The body of `move_system`'s `'top` loop for one `(idx, pos)` pair of the
copied position list: a failing walk flags the stored cell invalid at once,
a succeeding walk records the move for the commit phase. -/
def moveWalkStep (id : Nat) (dir : Dir) (quantity : Nat)
    (acc : World × List (Nat × Pos)) (ip : Nat × Pos) : World × List (Nat × Pos) :=
  match walk acc.1 dir quantity ip.2 with
  | some q => (acc.1, acc.2 ++ [(ip.1, q)])
  | none =>
    ({ acc.1 with
        position := acc.1.position.set id
          ((acc.1.position.getD id []).set ip.1
            (flagInvalid ((acc.1.position.getD id []).getD ip.1 Pos.nil))) },
      acc.2)

/-- The commit phase of `move_system`: write one walked cell back into the
entity's position list. -/
def commitMove (id : Nat) (wa : World) (im : Nat × Pos) : World :=
  { wa with position := wa.position.set id ((wa.position.getD id []).set im.1 im.2) }

/-- `move_system`'s handling of a single entity: walk every occupied cell,
then bounce / kill when no cell produced a valid new position, then commit
the valid moves. -/
def moveEntity (w : World) (id : Nat) : World :=
  let v := w.velocity.getD id (0, .None)
  let quantity := v.1
  let dir := v.2
  if quantity = 0 then w
  else
    let entityPositions := w.position.getD id []
    let res := entityPositions.enum.foldl (moveWalkStep id dir quantity) (w, [])
    let w1 := res.1
    let moves := res.2
    let w2 :=
      if moves.isEmpty then
        if w1.bounce.getD id false then
          { w1 with velocity := w1.velocity.set id (quantity, dir.opposite) }
        else
          { w1 with alive := w1.alive.set id false }
      else w1
    moves.foldl (commitMove id) w2

/-- `move_system`: iterates the entity ids that are alive at the start of
the pass. -/
def moveSystem (w : World) : World :=
  (aliveEntities w).foldl moveEntity w

/-- `lifetime_system`.  The source computes `n - 1` on a `u32`; `Temporary 0`
never occurs in reachable worlds (every factory uses a positive lifetime and
the decrement stops at 1), so truncated subtraction agrees with the source
wherever it is run. -/
def lifetimeStep (wa : World) (id : Nat) : World :=
  match wa.lifetime.getD id .Permanent with
  | .Temporary n =>
    if n - 1 > 0 then { wa with lifetime := wa.lifetime.set id (.Temporary (n - 1)) }
    else { wa with alive := wa.alive.set id false }
  | _ => wa

def lifetimeSystem (w : World) : World :=
  (aliveEntities w).foldl lifetimeStep w

/-- Do two position lists share a cell (the two inner loops of
`collision_system`). -/
def posHit (l1 l2 : List Pos) : Bool :=
  l1.any fun p1 => l2.any fun p2 => p1.doesHit p2

/-- The scan of `collision_system`, faithful to the source's loop variables:
`for (id1, idx) in ids.iter().enumerate()` binds `id1` to the *index* into
`ids` and `idx` to the stored entity id, and the inner loop skips `idx`
elements; the scan stops at the first hit (`break 'top`). -/
def collisionFirst (w : World) (ids : List Nat) : Option (Nat × Nat) :=
  ids.enum.findSome? fun e =>
    ((ids.drop e.2).find? fun id2 =>
        decide (e.1 ≠ id2)
          && posHit (w.position.getD e.1 []) (w.position.getD id2 [])).map
      fun id2 => (e.1, id2)

/-- One `if !w.shield[id] { w.alive[id] = false }` statement of
`collision_system`. -/
def killUnshielded (w : World) (id : Nat) : World :=
  if w.shield.getD id false then w else { w with alive := w.alive.set id false }

/-- `collision_system`: kill the unshielded members of the first colliding
pair found (the shield reads of the second member see the world after the
first kill, which leaves `shield` untouched, exactly as in the source). -/
def collisionSystem (w : World) : World :=
  match collisionFirst w (aliveEntities w) with
  | none => w
  | some (id1, id2) => killUnshielded (killUnshielded w id1) id2

/-- The shield-upkeep step of `energy_system` for one shielded id: pay
`ENERGY_SHIELD` when the energy is strictly above the cost, otherwise turn
the shield off. -/
def shieldUpkeep (wa : World) (id : Nat) : World :=
  let e := wa.energy.getD id 0
  if e > ENERGY_SHIELD then
    { wa with energy := wa.energy.set id (e - ENERGY_SHIELD) }
  else
    { wa with shield := wa.shield.set id false }

/-- `energy_system`: add one energy to every entity below the cap, then make
every shielded entity pay the shield upkeep. -/
def energySystem (w : World) : World :=
  let w1 := { w with
    energy := w.energy.map fun n => if n < MAX_ENERGY then n + 1 else n }
  let shielded := (List.range w1.shield.length).filter fun i => w1.shield.getD i false
  shielded.foldl shieldUpkeep w1

/-- `explosion`: positions for an explosion originating at `p` — the cells of
the 5×5 square centred on `p` that have non-negative coordinates and pass
`is_on_board`, in the source's x-outer/y-inner order. -/
def explosion (w : World) (p : Pos) : List Pos :=
  (((List.range 5).map fun (i : Nat) => (p.x : Int) - 2 + (i : Int)).bind fun x =>
    if x < 0 then []
    else
      ((List.range 5).map fun (j : Nat) => (p.y : Int) - 2 + (j : Int)).filterMap fun y =>
        if y < 0 then Option.none
        else if w.isOnBoard ⟨x.toNat, y.toNat, false⟩ then some (⟨x.toNat, y.toNat, false⟩ : Pos)
        else Option.none)

/-- The per-entity body of `explode_system`: set `is_exploding`, replace the
position list by the explosion footprint around the first occupied cell,
zero the velocity. -/
def explodeStep (wa : World) (id : Nat) : World :=
  let wa1 := { wa with
    explode := wa.explode.set id ((wa.explode.getD id (false, false)).1, true) }
  let wa2 := { wa1 with
    position := wa1.position.set id
      (explosion wa1 ((wa1.position.getD id []).getD 0 Pos.nil)) }
  { wa2 with velocity := wa2.velocity.set id (0, .None) }

/-- `explode_system`: entities that will explode, are not yet exploding, and
whose remaining `Temporary` lifetime is within `EXPLODE_DURATION` get their
position list replaced by the explosion footprint around their first cell,
`is_exploding` set, and their velocity zeroed. -/
def explodeSystem (w : World) : World :=
  let toExplode :=
    ((List.range w.explode.length).filter fun id =>
        (w.explode.getD id (false, false)).1
          && !(w.explode.getD id (false, false)).2).filter
      fun id =>
        match w.lifetime.getD id .Permanent with
        | .Temporary n => n ≤ EXPLODE_DURATION
        | _ => false
  toExplode.foldl explodeStep w

/-- The data `is_on_board` depends on besides the probed cell: the board
dimensions and the cells of `Solid` entities.  `solidFrame w wa` says `wa`
agrees with `w` on all of it, so the two worlds have the same on-board
test. -/
def solidFrame (w wa : World) : Prop :=
  wa.width = w.width ∧ wa.height = w.height ∧ wa.lifetime = w.lifetime ∧
  ∀ i, w.lifetime.getD i .Permanent = .Solid →
    wa.position.getD i [] = w.position.getD i []

/-- `Solid` entities never move: proposition form of `solidsStill`. -/
def velStill (w : World) : Prop :=
  ∀ i, w.lifetime.getD i .Permanent = .Solid → (w.velocity.getD i (0, .None)).1 = 0

/-- `wa` agrees with `w` on everything `move_system` can touch except the
position row, velocity entry and alive flag of entity `id`. -/
def entityTouched (w : World) (id : Nat) (wa : World) : Prop :=
  wa.width = w.width ∧ wa.height = w.height ∧ wa.lifetime = w.lifetime ∧
  wa.explode = w.explode ∧ wa.shield = w.shield ∧ wa.bounce = w.bounce ∧
  wa.energy = w.energy ∧ wa.name = w.name ∧ wa.sprite = w.sprite ∧
  wa.position.length = w.position.length ∧ wa.velocity.length = w.velocity.length ∧
  wa.alive.length = w.alive.length ∧
  (∀ j, j ≠ id → wa.position.getD j [] = w.position.getD j []) ∧
  (∀ j, j ≠ id → wa.velocity.getD j (0, .None) = w.velocity.getD j (0, .None)) ∧
  (∀ j, j ≠ id → wa.alive.getD j false = w.alive.getD j false)

/-- `wa` agrees with `w` on the static fields, all list lengths, and
everything belonging to entity `id` (dual of `entityTouched`, used to carry
entity `id`'s data across the processing of the other entities). -/
def moveFrame (w : World) (id : Nat) (wa : World) : Prop :=
  wa.width = w.width ∧ wa.height = w.height ∧ wa.lifetime = w.lifetime ∧
  wa.explode = w.explode ∧ wa.shield = w.shield ∧ wa.bounce = w.bounce ∧
  wa.energy = w.energy ∧ wa.name = w.name ∧ wa.sprite = w.sprite ∧
  wa.position.length = w.position.length ∧ wa.velocity.length = w.velocity.length ∧
  wa.alive.length = w.alive.length ∧
  wa.position.getD id [] = w.position.getD id [] ∧
  wa.velocity.getD id (0, .None) = w.velocity.getD id (0, .None) ∧
  wa.alive.getD id false = w.alive.getD id false

/-- One tick of the system pipeline (`System::step` over the fixed array),
threading the `EnergyReload` phase counter. -/
def tick (w : World) (ecount : Nat) : World × Nat :=
  let w1 := moveSystem w
  let w2 := lifetimeSystem w1
  let w3 := collisionSystem w2
  let w4 := if ecount = 0 then energySystem w3 else w3
  (explodeSystem w4, (ecount + 1) % ENERGY_EVERY)

def tickS (s : World × Nat) : World × Nat := tick s.1 s.2

/-- States reachable from `s` by running whole pipeline ticks. -/
inductive Reach (s : World × Nat) : World × Nat → Prop where
  | refl : Reach s s
  | step {t : World × Nat} : Reach s t → Reach s (tickS t)

/-- `World::add_players`. -/
def addPlayers (w : World) : World :=
  let r1 := newPlayer w "Player 1" "1" 1
  let r2 := newPlayer r1.1 "Player 2" "2" 2
  { r2.1 with player1 := r1.2, player2 := r2.2 }

/-- `World::add_obstacles`: one `Solid` bar per row of the middle third of
the central column. -/
def addObstacles (w : World) : World :=
  let x := w.width / 2
  let third := w.height / 3
  (List.range third).foldl
    (fun wa i => newBar wa ⟨x, third + i, false⟩ .Up) w

/-- `World::reset`: clear every component array, re-add players and
obstacles; the board fields and life counters are preserved. -/
def World.reset (w : World) : World :=
  addObstacles (addPlayers { w with
    name := [], alive := [], lifetime := [], sprite := [], velocity := [],
    position := [], energy := [], shield := [], bounce := [], explode := [],
    activeWeapon := [] })

/-- The fresh `World` literal built in `run`, before `add_players` /
`add_obstacles`. -/
def emptyWorld (width height : Nat) : World :=
  { width := width, height := height, player1 := 0, player2 := 0,
    p1Lives := PLAYER_LIVES, p2Lives := PLAYER_LIVES,
    missileRangeHorizontal := max (width / 6) MISSILE_MIN_RANGE,
    missileRangeVertical := max (height / 5) MISSILE_MIN_RANGE,
    name := [], alive := [], lifetime := [], sprite := [], velocity := [],
    position := [], energy := [], shield := [], bounce := [], explode := [],
    activeWeapon := [] }

/-- The world as constructed in `run`. -/
def initialWorld (width height : Nat) : World :=
  addObstacles (addPlayers (emptyWorld width height))

/-- `to_start_positions`. -/
def toStartPositions (w : World) : World :=
  let quarter := w.width / 4
  let p1 := w.player1
  let p2 := w.player2
  let w1 := { w with
    position := w.position.set p1 [⟨quarter, w.height / 2, false⟩]
    velocity := w.velocity.set p1 ((w.velocity.getD p1 (0, .None)).1, .None) }
  { w1 with
    position := w1.position.set p2 [⟨quarter * 3, w1.height / 2, false⟩]
    velocity := w1.velocity.set p2 ((w1.velocity.getD p2 (0, .None)).1, .None) }

/-- The round-start state set up at the top of `game_loop`: both players
revived, then `to_start_positions`. -/
def roundStart (w : World) : World :=
  toStartPositions { w with
    alive := (w.alive.set w.player1 true).set w.player2 true }

/-- `World::entity_state` big-endian bytes of a `u32` (`to_be_bytes`). -/
def u32BeBytes (n : Nat) : List Nat :=
  [n / 2 ^ 24 % 256, n / 2 ^ 16 % 256, n / 2 ^ 8 % 256, n % 256]

/-- One entity's 12-byte record inside `World::entity_state`. -/
def entityRecord (w : World) (id : Nat) : List Nat :=
  [id % 256]
    ++ u32BeBytes ((w.position.getD id []).getD 0 Pos.nil).x
    ++ u32BeBytes ((w.position.getD id []).getD 0 Pos.nil).y
    ++ [(w.velocity.getD id (0, .None)).2.asNum]
    ++ [(w.velocity.getD id (0, .None)).1]
    ++ [if w.shield.getD id false then 1 else 0]

/-- `World::entity_state`: push the record of every entity, in id order,
into one byte vector. -/
def World.entityState (w : World) : List Nat :=
  (List.range w.name.length).foldl (fun state id => state ++ entityRecord w id) []

/-- `game/src/server.rs` / `src/input.rs` `InputEvent`. -/
inductive InputEvent where
  | Move (entityId : Nat) (dir : Dir)
  | Fire (entityId : Nat) (dir : Dir)
  | ToggleShield (entityId : Nat)
  | ChangeWeapon (entityId : Nat)
  | Quit
deriving DecidableEq, Repr

/-- `into_input_event`: decode one 8-byte command record; `none` models the
`panic!` on an undefined command byte and the `Dir::from_num` panic. -/
def intoInputEvent (b : List Nat) (entityId : Nat) : Option InputEvent :=
  match b.getD 0 0 with
  | 0 => some .Quit
  | 1 => (Dir.fromNum (b.getD 1 0)).map fun d => .Move entityId d
  | 2 => (Dir.fromNum (b.getD 1 0)).map fun d => .Fire entityId d
  | 3 => some (.ToggleShield entityId)
  | 4 => some (.ChangeWeapon entityId)
  | _ => Option.none

/-- The fixed 8-byte command record with command code `c` and direction code
`d` (the layout written by the bot SDK's `move_cmd` / `fire_cmd`). -/
def commandBytes (c d : Nat) : List Nat := [c, d, 0, 0, 0, 0, 0, 0]

/-- The `InputEvent::Fire` arm of `game_loop`'s input handling: map the
player number to its entity id, advance the firing position when firing
forward (dropping the event when that cell is off-board), then spend energy
and invoke the weapon factory.  `none` models the panics (bad player id,
`unwrap` on a missing weapon, `new_missile` with `Dir::None`). -/
def fireEvent (w : World) (entityId : Nat) (dir : Dir) : Option World :=
  (match entityId with
    | 1 => some w.player1
    | 2 => some w.player2
    | _ => Option.none).bind fun id =>
  let pos0 := (w.position.getD id []).getD 0 Pos.nil
  (if dir = (w.velocity.getD id (0, .None)).2 then
      let p := pos0.moved 1 dir
      if !(w.isOnBoard p) then Option.none else some p
    else some pos0).elim (some w) fun pos =>
  let e := w.energy.getD id 0
  match w.activeWeapon.getD id Option.none with
  | Option.none => Option.none
  | some .Missile =>
    if e > ENERGY_MISSILE then
      (newMissile w pos dir (w.sprite.getD id Sprite.nil).colorIdx).map fun (w1 : World) =>
        { w1 with energy := w1.energy.set id (w1.energy.getD id 0 - ENERGY_MISSILE) }
    else some w
  | some .Ray =>
    if e > ENERGY_RAY then
      let w1 := newRay w pos dir (w.sprite.getD id Sprite.nil).colorIdx
      some { w1 with energy := w1.energy.set id (w1.energy.getD id 0 - ENERGY_RAY) }
    else some w

/-- A concrete round-start world on a 30×12 board with player 1 moved to the
right margin, used to exercise the fire handler. -/
def fireWorld : World :=
  let w := roundStart (initialWorld 30 12)
  { w with position := w.position.set 0 [⟨28, 6, false⟩] }

/-- A one-entity world with the shield on and energy `ENERGY_SHIELD - 1`:
after the reload its energy equals the upkeep cost exactly. -/
def energyEdgeWorld : World :=
  { emptyWorld 30 12 with
    name := ["E"], alive := [true], lifetime := [.Permanent], sprite := [Sprite.nil],
    velocity := [(0, .None)], position := [[⟨5, 5, false⟩]], energy := [2],
    shield := [true], bounce := [false], explode := [(false, false)],
    activeWeapon := [Option.none] }

/-- A one-entity world holding a missile two ticks from the end of its
life, about to detonate at (10, 6). -/
def explodeWorld : World :=
  { emptyWorld 30 12 with
    name := ["M"], alive := [true], lifetime := [.Temporary 2], sprite := [Sprite.nil],
    velocity := [(2, .Right)], position := [[⟨10, 6, false⟩, ⟨11, 6, false⟩]],
    energy := [0], shield := [false], bounce := [false], explode := [(true, false)],
    activeWeapon := [Option.none] }

/-- Invariant I1: all eleven component sequences have the same length. -/
def I1 (w : World) : Prop :=
  w.alive.length = w.name.length ∧ w.lifetime.length = w.name.length ∧
  w.sprite.length = w.name.length ∧ w.velocity.length = w.name.length ∧
  w.position.length = w.name.length ∧ w.energy.length = w.name.length ∧
  w.shield.length = w.name.length ∧ w.bounce.length = w.name.length ∧
  w.explode.length = w.name.length ∧ w.activeWeapon.length = w.name.length

instance : DecidablePred I1 := fun w => by unfold I1; infer_instance

/-- The lengths of the eleven component arrays, bundled. -/
def compLengths (w : World) : List Nat :=
  [w.name.length, w.alive.length, w.lifetime.length, w.sprite.length,
    w.velocity.length, w.position.length, w.energy.length, w.shield.length,
    w.bounce.length, w.explode.length, w.activeWeapon.length]

/-- The world-mutating operations of a round: the four entity factories
(invoked by `reset` and by input handling) and whole pipeline ticks. -/
inductive Op where
  | player (name texture : String) (colorIdx : Nat)
  | missile (startPos : Pos) (dir : Dir) (colorIdx : Nat)
  | ray (startPos : Pos) (dir : Dir) (colorIdx : Nat)
  | bar (startPos : Pos) (dir : Dir)
  | reset
  | tickOp (ecount : Nat)

def applyOp (w : World) : Op → Option World
  | .player n t c => some (newPlayer w n t c).1
  | .missile p d c => newMissile w p d c
  | .ray p d c => some (newRay w p d c)
  | .bar p d => some (newBar w p d)
  | .reset => some w.reset
  | .tickOp ec => some (tick w ec).1

/-- Run a sequence of operations; `none` when some factory panics. -/
def runOps : List Op → World → Option World
  | [], w => some w
  | op :: ops, w => (applyOp w op).bind (runOps ops)

/-- A demonstration operation sequence exercising every factory, ticks and a
reset. -/
def demoOps : List Op :=
  [.player "P1" "1" 1, .missile ⟨5, 5, false⟩ .Right 1, .ray ⟨10, 6, false⟩ .Down 2,
    .bar ⟨15, 8, false⟩ .Up, .tickOp 0, .reset, .tickOp 1]

def demoResult : World := (runOps demoOps (emptyWorld 30 12)).getD (emptyWorld 0 0)

/-- `wa` differs from `w` at most in the position row of entity `id`. -/
def rowExcept (w : World) (id : Nat) (wa : World) : Prop :=
  ∃ r, wa = { w with position := w.position.set id r }

/-- Invariant I4-style side condition: `Solid` entities have velocity
step-count 0 (true of every world the factories build: only `new_bar`
creates `Solid` rows, with velocity `(0, dir)`). -/
def solidsStill (w : World) : Bool :=
  (List.range w.lifetime.length).all fun i =>
    !(w.lifetime.getD i .Permanent == .Solid) || ((w.velocity.getD i (0, .None)).1 == 0)

/-- Board containment: every alive, non-exploding, non-`Solid` entity has
all its non-invalid-flagged cells on the board. -/
def cellsContained (w : World) : Bool :=
  (List.range w.alive.length).all fun id =>
    !(w.alive.getD id false) || (w.explode.getD id (false, false)).2 ||
    (w.lifetime.getD id .Permanent == .Solid) ||
    (w.position.getD id []).all fun p => p.invalid || w.isOnBoard p

/-- Proposition form of `cellsContained`: every alive, non-exploding,
non-`Solid` entity has all its non-invalid-flagged cells on the board. -/
def contained (w : World) : Prop :=
  ∀ id, w.alive.getD id false = true →
    (w.explode.getD id (false, false)).2 = false →
    w.lifetime.getD id .Permanent ≠ .Solid →
    ∀ p ∈ w.position.getD id [], p.invalid = false → w.isOnBoard p = true

/-- The data `is_on_board` reads, up to the *Boolean* `Solid` test: `wa`
agrees with `w` on the board dimensions, on which indices hold `Solid`
rows, and on the position rows of the `Solid` entities.  Weaker than
`solidFrame` (the lifetime lists need not be equal), which `lifetime_system`
needs because it rewrites `Temporary` entries. -/
def boardSame (w wa : World) : Prop :=
  wa.width = w.width ∧ wa.height = w.height ∧
  wa.lifetime.length = w.lifetime.length ∧
  (∀ i, (wa.lifetime.getD i .Permanent == Lifetime.Solid) =
    (w.lifetime.getD i .Permanent == Lifetime.Solid)) ∧
  (∀ i, w.lifetime.getD i .Permanent = .Solid →
    wa.position.getD i [] = w.position.getD i [])

/-- Frame of `lifetime_system` relative to the pass-start world: only
`lifetime` entries (`Temporary` ones at that) and `alive` flags change,
and `alive` only decreases. -/
def ltFrame (w wa : World) : Prop :=
  wa.width = w.width ∧ wa.height = w.height ∧ wa.position = w.position ∧
  wa.velocity = w.velocity ∧ wa.explode = w.explode ∧
  wa.lifetime.length = w.lifetime.length ∧
  (∀ i, (wa.lifetime.getD i .Permanent == Lifetime.Solid) =
    (w.lifetime.getD i .Permanent == Lifetime.Solid)) ∧
  (∀ j, wa.alive.getD j false = true → w.alive.getD j false = true)

/-- Frame of `explode_system` relative to the pass-start world: entities
whose `is_exploding` flag is still off keep their position rows, `Solid`
rows are untouched, and every velocity is either zeroed or unchanged. -/
def exFrame (w wa : World) : Prop :=
  wa.width = w.width ∧ wa.height = w.height ∧ wa.lifetime = w.lifetime ∧
  wa.alive = w.alive ∧ wa.explode.length = w.explode.length ∧
  (∀ i, w.lifetime.getD i .Permanent = .Solid →
    wa.position.getD i [] = w.position.getD i []) ∧
  (∀ i, (wa.explode.getD i (false, false)).2 = false →
    (w.explode.getD i (false, false)).2 = false ∧
      wa.position.getD i [] = w.position.getD i []) ∧
  (∀ i, (wa.velocity.getD i (0, .None)).1 = 0 ∨
    wa.velocity.getD i (0, .None) = w.velocity.getD i (0, .None))

/-- A one-entity world with a bouncing entity at the left margin moving
left: its only cell's walk goes off-board. -/
def bounceWorld : World :=
  { emptyWorld 30 12 with
    name := ["B"], alive := [true], lifetime := [.Permanent], sprite := [Sprite.nil],
    velocity := [(1, .Left)], position := [[⟨1, 5, false⟩]], energy := [100],
    shield := [false], bounce := [true], explode := [(false, false)],
    activeWeapon := [Option.none] }

/-- A four-entity world with two simultaneously colliding pairs:
entities 0 and 1 share cell (5,5) (entity 1 is shielded), entities 2 and 3
share cell (8,8) (both unshielded). -/
def collideWorld : World :=
  { emptyWorld 30 12 with
    name := ["a", "b", "c", "d"],
    alive := [true, true, true, true],
    lifetime := [.Permanent, .Permanent, .Permanent, .Permanent],
    sprite := [Sprite.nil, Sprite.nil, Sprite.nil, Sprite.nil],
    velocity := [(0, .None), (0, .None), (0, .None), (0, .None)],
    position := [[⟨5, 5, false⟩], [⟨5, 5, false⟩], [⟨8, 8, false⟩], [⟨8, 8, false⟩]],
    energy := [0, 0, 0, 0], shield := [false, true, false, false],
    bounce := [false, false, false, false],
    explode := [(false, false), (false, false), (false, false), (false, false)],
    activeWeapon := [Option.none, Option.none, Option.none, Option.none] }

/-! ## Basic list helper lemmas -/

theorem getD_set_ne {α : Type _} (l : List α) {i j : Nat} (a d : α) (h : i ≠ j) :
    (l.set i a).getD j d = l.getD j d := by
  simp [List.getD_eq_getElem?_getD, List.getElem?_set_ne h]

theorem getD_set_self {α : Type _} (l : List α) {i : Nat} (a d : α) (h : i < l.length) :
    (l.set i a).getD i d = a := by
  simp [List.getD_eq_getElem?_getD, List.getElem?_set, h]

theorem getD_append_left {α : Type _} (l l' : List α) {i : Nat} (d : α)
    (h : i < l.length) : (l ++ l').getD i d = l.getD i d := by
  simp [List.getD_eq_getElem?_getD, List.getElem?_append_left h]

theorem getD_map_lt {α β : Type _} (l : List α) (f : α → β) {i : Nat} (d : β) (d' : α)
    (h : i < l.length) : (l.map f).getD i d = f (l.getD i d') := by
  simp [List.getD_eq_getElem?_getD, List.getElem?_eq_getElem, h]

/-! ## Shared facts about the factories and systems -/

/-- `new_missile` with an off-board trailing cell returns before touching any
component array. -/
theorem newMissile_noop_of_offboard (w : World) (startPos : Pos) (dir : Dir)
    (colorIdx : Nat) (h : w.isOnBoard (startPos.moved 1 dir) = false) :
    newMissile w startPos dir colorIdx = some w := by
  unfold newMissile
  simp [h]

/-! ## C6: missile creation is rejected atomically -/

/-- C6: for every world, start position and direction, if the trailing cell
(`start` advanced one step in `dir`) does not satisfy `is_on_board`, then
`new_missile` is a no-op: the returned world is the input world, so every
component array and every other field is unchanged and no (partial) row is
appended. -/
theorem c6_new_missile_rejected_noop (w : World) (startPos : Pos) (dir : Dir)
    (colorIdx : Nat) (h : w.isOnBoard (startPos.moved 1 dir) = false) :
    newMissile w startPos dir colorIdx = some w :=
  newMissile_noop_of_offboard w startPos dir colorIdx h

/-- Witness for C6 at a concrete input: firing left from the left margin. -/
theorem c6_new_missile_rejected_noop_witness :
    (emptyWorld 30 12).isOnBoard ((Pos.mk 0 5 false).moved 1 .Left) = false ∧
    newMissile (emptyWorld 30 12) (Pos.mk 0 5 false) .Left 1 = some (emptyWorld 30 12) :=
  ⟨by decide, c6_new_missile_rejected_noop (emptyWorld 30 12) (Pos.mk 0 5 false) .Left 1
    (by decide)⟩

/-! ## C7: command codec round-trip -/

/-- C7: for each of the 5 command codes (0=Quit, 1=Move, 2=Fire,
3=ToggleShield, 4=ChangeWeapon) and each of the 5 direction codes (encoded by
`Dir::as_num`), decoding the fixed 8-byte record whose byte 0 is the command
code and byte 1 is the direction code reproduces the original command variant
and direction. -/
theorem c7_command_codec_roundtrip (d : Dir) (entityId : Nat) :
    intoInputEvent (commandBytes 0 d.asNum) entityId = some .Quit ∧
    intoInputEvent (commandBytes 1 d.asNum) entityId = some (.Move entityId d) ∧
    intoInputEvent (commandBytes 2 d.asNum) entityId = some (.Fire entityId d) ∧
    intoInputEvent (commandBytes 3 d.asNum) entityId = some (.ToggleShield entityId) ∧
    intoInputEvent (commandBytes 4 d.asNum) entityId = some (.ChangeWeapon entityId) := by
  cases d <;> exact ⟨rfl, rfl, rfl, rfl, rfl⟩

/-! ## C10: energy is spent even when missile creation is rejected -/

/-- C10: when player 1's active weapon is `Missile`, its energy is strictly
above `ENERGY_MISSILE`, the fire direction differs from its current velocity
direction, and the missile's trailing cell is off-board, the fire handler
still subtracts `ENERGY_MISSILE` while `new_missile` appends nothing: the
resulting world is the input world with only the player's energy reduced. -/
theorem c10_fire_rejected_still_spends_energy (w : World) (dir : Dir)
    (hw : w.activeWeapon.getD w.player1 Option.none = some .Missile)
    (he : w.energy.getD w.player1 0 > ENERGY_MISSILE)
    (hd : dir ≠ (w.velocity.getD w.player1 (0, .None)).2)
    (hreject : w.isOnBoard
      (((w.position.getD w.player1 []).getD 0 Pos.nil).moved 1 dir) = false) :
    fireEvent w 1 dir = some { w with
      energy := w.energy.set w.player1 (w.energy.getD w.player1 0 - ENERGY_MISSILE) } := by
  unfold fireEvent
  simp only [Option.bind_eq_bind, Option.some_bind]
  rw [if_neg hd]
  simp only [Option.elim_some]
  rw [hw]
  simp only [if_pos he]
  rw [newMissile_noop_of_offboard w _ dir _ hreject]
  rfl

/-- Witness for C10: a 30×12 board, player 1 at the right margin firing
right; energy drops by `ENERGY_MISSILE` and no entity row appears. -/
theorem c10_fire_rejected_still_spends_energy_witness :
    fireEvent fireWorld 1 .Right = some { fireWorld with
      energy := fireWorld.energy.set fireWorld.player1
        (fireWorld.energy.getD fireWorld.player1 0 - ENERGY_MISSILE) } :=
  c10_fire_rejected_still_spends_energy fireWorld .Right
    (by decide) (by decide) (by decide) (by decide)

/-! ## C8: shield economy -/

theorem getD_set_false (l : List Bool) (i : Nat) : (l.set i false).getD i false = false := by
  rcases Nat.lt_or_ge i l.length with h | h
  · exact getD_set_self l _ false h
  · rw [List.set_eq_of_length_le h, List.getD_eq_getElem?_getD, List.getElem?_eq_none h]
    rfl

theorem shieldUpkeep_energy_length (w : World) (id : Nat) :
    (shieldUpkeep w id).energy.length = w.energy.length := by
  simp only [shieldUpkeep]
  split <;> simp

theorem shieldUpkeep_frame (w : World) {i id : Nat} (h : id ≠ i) :
    (shieldUpkeep w id).energy.getD i 0 = w.energy.getD i 0 ∧
    (shieldUpkeep w id).shield.getD i false = w.shield.getD i false := by
  simp only [shieldUpkeep]
  split <;> simp [List.getD_eq_getElem?_getD, List.getElem?_set_ne h]

theorem upkeepFold_frame (l : List Nat) (w : World) (i : Nat) (h : i ∉ l) :
    (l.foldl shieldUpkeep w).energy.getD i 0 = w.energy.getD i 0 ∧
    (l.foldl shieldUpkeep w).shield.getD i false = w.shield.getD i false := by
  induction l generalizing w with
  | nil => exact ⟨rfl, rfl⟩
  | cons a l ih =>
    have ha : a ≠ i := fun hc => h (hc ▸ List.mem_cons_self a l)
    have hl : i ∉ l := fun hc => h (List.mem_cons_of_mem a hc)
    have step := @shieldUpkeep_frame w i a (Ne.symm (Ne.symm ha))
    have := ih (shieldUpkeep w a) hl
    exact ⟨this.1.trans step.1, this.2.trans step.2⟩

theorem upkeepFold_energy_length (l : List Nat) (w : World) :
    (l.foldl shieldUpkeep w).energy.length = w.energy.length := by
  induction l generalizing w with
  | nil => rfl
  | cons a l ih => exact (ih (shieldUpkeep w a)).trans (shieldUpkeep_energy_length w a)

theorem upkeepFold_mem (l : List Nat) (w : World) (id : Nat) (hn : l.Nodup)
    (hm : id ∈ l) (hid : id < w.energy.length) :
    (l.foldl shieldUpkeep w).energy.getD id 0 =
      (if w.energy.getD id 0 > ENERGY_SHIELD
        then w.energy.getD id 0 - ENERGY_SHIELD else w.energy.getD id 0) ∧
    (l.foldl shieldUpkeep w).shield.getD id false =
      (if w.energy.getD id 0 > ENERGY_SHIELD
        then w.shield.getD id false else false) := by
  induction l generalizing w with
  | nil => cases hm
  | cons a l ih =>
    rcases List.mem_cons.mp hm with rfl | hmem
    · have hnotin : id ∉ l := (List.nodup_cons.mp hn).1
      have hframe := upkeepFold_frame l (shieldUpkeep w id) id hnotin
      refine ⟨hframe.1.trans ?_, hframe.2.trans ?_⟩
      · simp only [shieldUpkeep]
        split
        · exact getD_set_self w.energy _ 0 hid
        · rfl
      · simp only [shieldUpkeep]
        split
        · rfl
        · exact getD_set_false w.shield id
    · have ha : a ≠ id := fun hc => (List.nodup_cons.mp hn).1 (hc ▸ hmem)
      have step := @shieldUpkeep_frame w id a ha
      have hid' : id < (shieldUpkeep w a).energy.length := by
        rw [shieldUpkeep_energy_length]; exact hid
      have := ih (shieldUpkeep w a) (List.nodup_cons.mp hn).2 hmem hid'
      rw [step.1, step.2] at this
      exact this

/-- C8 counterexample: one entity, shield on, energy 2.  On the active
reload tick its energy becomes exactly `ENERGY_SHIELD`; the claim says an
entity whose energy is not below the cost pays it and keeps its shield, but
the code requires the energy to be strictly above the cost, turns the shield
off and leaves the energy at 3. -/
theorem c8_counterexample :
    energyEdgeWorld.shield.getD 0 false = true ∧
    energyEdgeWorld.energy.getD 0 0 + 1 = ENERGY_SHIELD ∧
    (energySystem energyEdgeWorld).shield.getD 0 true = false ∧
    (energySystem energyEdgeWorld).energy.getD 0 0 = ENERGY_SHIELD := by
  decide

/-- C8 (amended): on an EnergyReload active tick, every entity's energy
increases by 1 unless already at the cap `MAX_ENERGY` (and never exceeds the
cap); then every shielded entity whose post-reload energy is strictly above
`ENERGY_SHIELD` pays the upkeep, while every entity whose shield is on but
whose post-reload energy is at or below the upkeep cost has its shield
forcibly turned off with its energy unchanged; the subtraction never
underflows. -/
theorem c8_energy_system (w : World) (id : Nat)
    (hid : id < w.energy.length) (hlen : w.shield.length = w.energy.length) :
    (energySystem w).energy.getD id 0 =
      (if w.shield.getD id false && decide (ENERGY_SHIELD <
          (if w.energy.getD id 0 < MAX_ENERGY then w.energy.getD id 0 + 1
            else w.energy.getD id 0))
        then (if w.energy.getD id 0 < MAX_ENERGY then w.energy.getD id 0 + 1
            else w.energy.getD id 0) - ENERGY_SHIELD
        else (if w.energy.getD id 0 < MAX_ENERGY then w.energy.getD id 0 + 1
            else w.energy.getD id 0)) ∧
    (energySystem w).shield.getD id false =
      (w.shield.getD id false && decide (ENERGY_SHIELD <
        (if w.energy.getD id 0 < MAX_ENERGY then w.energy.getD id 0 + 1
          else w.energy.getD id 0))) ∧
    (w.energy.getD id 0 ≤ MAX_ENERGY → (energySystem w).energy.getD id 0 ≤ MAX_ENERGY) := by
  set e0 := w.energy.getD id 0 with he0
  set e1 := if e0 < MAX_ENERGY then e0 + 1 else e0 with he1
  have hsys : energySystem w =
      (((List.range w.shield.length).filter fun i => w.shield.getD i false).foldl
        shieldUpkeep
        { w with energy := w.energy.map fun n => if n < MAX_ENERGY then n + 1 else n }) := rfl
  set w1 : World :=
    { w with energy := w.energy.map fun n => if n < MAX_ENERGY then n + 1 else n } with hw1
  have hw1e : w1.energy.getD id 0 = e1 := getD_map_lt w.energy _ 0 0 hid
  have hw1s : w1.shield = w.shield := rfl
  have hidw1 : id < w1.energy.length := by
    show id < (w.energy.map _).length
    simpa using hid
  have hnodup : ((List.range w.shield.length).filter
      fun i => w.shield.getD i false).Nodup :=
    (List.nodup_range _).filter _
  have key : (energySystem w).energy.getD id 0 =
        (if w.shield.getD id false && decide (ENERGY_SHIELD < e1)
          then e1 - ENERGY_SHIELD else e1)
      ∧ (energySystem w).shield.getD id false =
        (w.shield.getD id false && decide (ENERGY_SHIELD < e1)) := by
    by_cases hs : w.shield.getD id false = true
    · have hmem : id ∈ (List.range w.shield.length).filter
          (fun i => w.shield.getD i false) := by
        refine List.mem_filter.mpr ⟨List.mem_range.mpr ?_, hs⟩
        rw [hlen]; exact hid
      have hm := upkeepFold_mem _ w1 id hnodup hmem hidw1
      rw [hw1e, hw1s] at hm
      rcases hm with ⟨hm1, hm2⟩
      rw [hs] at hm2
      rw [hsys]
      refine ⟨?_, ?_⟩
      · simp only [hs, Bool.true_and, decide_eq_true_eq]
        exact hm1
      · simp only [hs, Bool.true_and]
        rw [hm2]
        by_cases hgt : ENERGY_SHIELD < e1 <;> simp [hgt]
    · have hnot : id ∉ (List.range w.shield.length).filter
          (fun i => w.shield.getD i false) := by
        intro hc
        exact hs (List.mem_filter.mp hc).2
      have hf := upkeepFold_frame _ w1 id hnot
      rw [hw1e, hw1s] at hf
      rw [hsys]
      simp only [Bool.not_eq_true] at hs
      refine ⟨?_, ?_⟩
      · simp only [hs, Bool.false_and, Bool.false_eq_true, if_false]
        exact hf.1
      · simp only [hs, Bool.false_and]
        exact hf.2.trans hs
  refine ⟨key.1, key.2, fun h0 => ?_⟩
  rw [key.1]
  have h1 : e1 ≤ MAX_ENERGY := by rw [he1]; split <;> omega
  split <;> omega

/-- Witness for C8: the pre-state of the counterexample world, pushed
through the amended theorem. -/
theorem c8_energy_system_witness :
    (energySystem energyEdgeWorld).energy.getD 0 0 = 3 ∧
    (energySystem energyEdgeWorld).shield.getD 0 false = false :=
  ⟨((c8_energy_system energyEdgeWorld 0 (by decide) (by decide)).1).trans (by decide),
    ((c8_energy_system energyEdgeWorld 0 (by decide) (by decide)).2.1).trans (by decide)⟩

/-! ## C9: snapshot encoding layout -/

theorem foldl_append_eq_bind {α : Type _} (f : α → List Nat) :
    ∀ (l : List α) (init : List Nat),
      l.foldl (fun acc a => acc ++ f a) init = init ++ l.bind f
  | [], init => by simp
  | a :: l, init => by
    have hc : (a :: l).bind f = f a ++ l.bind f := rfl
    simp only [List.foldl_cons, hc]
    rw [foldl_append_eq_bind f l (init ++ f a), List.append_assoc]

theorem bind_length_const (f : Nat → List Nat) (c : Nat)
    (h : ∀ a, (f a).length = c) :
    ∀ l : List Nat, (l.bind f).length = c * l.length
  | [] => by simp
  | a :: l => by
    have hc : (a :: l).bind f = f a ++ l.bind f := rfl
    simp only [hc, List.length_append, h a, bind_length_const f c h l,
      List.length_cons]
    ring

theorem bind_slice (f : Nat → List Nat) (h : ∀ a, (f a).length = 12) :
    ∀ (l : List Nat) (k : Nat), k < l.length →
      ((l.bind f).drop (12 * k)).take 12 = f (l.getD k 0)
  | a :: l, 0, _ => by
    simpa [h a] using List.take_left (f a) (l.bind f)
  | a :: l, k + 1, hk => by
    have hc : (a :: l).bind f = f a ++ l.bind f := rfl
    have h12 : 12 * (k + 1) = (f a).length + 12 * k := by rw [h a]; ring
    simp only [hc, h12, List.drop_append]
    exact bind_slice f h l k (Nat.lt_of_succ_lt_succ hk)

theorem entityState_eq_bind (w : World) :
    w.entityState = (List.range w.name.length).bind (entityRecord w) := by
  unfold World.entityState
  rw [foldl_append_eq_bind]
  rfl

theorem entityRecord_length (w : World) (id : Nat) :
    (entityRecord w id).length = 12 := rfl

/-- C9: the snapshot is `12 × entity_count` bytes, and for every entity id
(alive or not, in ascending id order) the 12-byte slice starting at
`12 * id` is exactly: the entity id as one byte, the x position as a
big-endian unsigned 32-bit value, the y position likewise, the direction
code (`Dir::as_num`), the velocity step-count byte, and the shield flag
byte. -/
theorem c9_snapshot_layout (w : World) :
    w.entityState.length = 12 * w.name.length ∧
    ∀ id, id < w.name.length →
      (w.entityState.drop (12 * id)).take 12 =
        [id % 256,
          ((w.position.getD id []).getD 0 Pos.nil).x / 2 ^ 24 % 256,
          ((w.position.getD id []).getD 0 Pos.nil).x / 2 ^ 16 % 256,
          ((w.position.getD id []).getD 0 Pos.nil).x / 2 ^ 8 % 256,
          ((w.position.getD id []).getD 0 Pos.nil).x % 256,
          ((w.position.getD id []).getD 0 Pos.nil).y / 2 ^ 24 % 256,
          ((w.position.getD id []).getD 0 Pos.nil).y / 2 ^ 16 % 256,
          ((w.position.getD id []).getD 0 Pos.nil).y / 2 ^ 8 % 256,
          ((w.position.getD id []).getD 0 Pos.nil).y % 256,
          (w.velocity.getD id (0, .None)).2.asNum,
          (w.velocity.getD id (0, .None)).1,
          if w.shield.getD id false then 1 else 0] := by
  constructor
  · rw [entityState_eq_bind, bind_length_const (entityRecord w) 12 (entityRecord_length w)]
    simp
  · intro id hid
    rw [entityState_eq_bind, bind_slice (entityRecord w) (entityRecord_length w)
      (List.range w.name.length) id (by simpa using hid)]
    have hr : (List.range w.name.length).getD id 0 = id := by
      rw [List.getD_eq_getElem?_getD, List.getElem?_range hid]
      rfl
    rw [hr]
    rfl

/-- Witness for C9: the layout at entity id 0 of a concrete round-start
world. -/
theorem c9_snapshot_layout_witness :
    (roundStart (initialWorld 30 12)).entityState.length =
        12 * (roundStart (initialWorld 30 12)).name.length ∧
    (((roundStart (initialWorld 30 12)).entityState.drop 0).take 12) =
      [0, 0, 0, 0, 7, 0, 0, 0, 6, 0, 1, 0] :=
  ⟨(c9_snapshot_layout (roundStart (initialWorld 30 12))).1,
    ((c9_snapshot_layout (roundStart (initialWorld 30 12))).2 0 (by decide)).trans (by decide)⟩

/-! ## Congruence of the board test under `solidFrame` -/

theorem solidHit_congr {w wa : World} (h : solidFrame w wa) (pos : Pos) :
    wa.solidHit pos = w.solidHit pos := by
  obtain ⟨-, -, hl, hp⟩ := h
  unfold World.solidHit
  rw [hl]
  refine Bool.eq_iff_iff.mpr ?_
  simp only [List.any_eq_true, List.mem_range, Bool.and_eq_true, beq_iff_eq]
  constructor
  · rintro ⟨i, hi, hsol, hhit⟩
    exact ⟨i, hi, hsol, by rw [← hp i hsol]; exact hhit⟩
  · rintro ⟨i, hi, hsol, hhit⟩
    exact ⟨i, hi, hsol, by rw [hp i hsol]; exact hhit⟩

theorem isOnBoard_congr {w wa : World} (h : solidFrame w wa) (pos : Pos) :
    wa.isOnBoard pos = w.isOnBoard pos := by
  unfold World.isOnBoard
  rw [h.1, h.2.1, solidHit_congr h]

theorem explosion_congr {w wa : World} (h : solidFrame w wa) (p : Pos) :
    explosion wa p = explosion w p := by
  unfold explosion
  have hb : ∀ q, wa.isOnBoard q = w.isOnBoard q := isOnBoard_congr h
  simp only [hb]

theorem solidFrame_refl (w : World) : solidFrame w w :=
  ⟨rfl, rfl, rfl, fun _ _ => rfl⟩

/-! ## C5: explosion footprint -/

theorem mem_explosion (w : World) (c q : Pos) :
    q ∈ explosion w c ↔
      ((c.x : Int) - 2 ≤ (q.x : Int) ∧ (q.x : Int) ≤ (c.x : Int) + 2 ∧
        (c.y : Int) - 2 ≤ (q.y : Int) ∧ (q.y : Int) ≤ (c.y : Int) + 2 ∧
        q.invalid = false ∧ w.isOnBoard q = true) := by
  obtain ⟨qx, qy, qi⟩ := q
  unfold explosion
  rw [List.mem_bind]
  dsimp only
  constructor
  · rintro ⟨x, hx, hq⟩
    rw [List.mem_map] at hx
    obtain ⟨i, hi, rfl⟩ := hx
    rw [List.mem_range] at hi
    split at hq
    · exact absurd hq (List.not_mem_nil _)
    · rename_i hx0
      rw [List.mem_filterMap] at hq
      obtain ⟨y, hy, hfy⟩ := hq
      rw [List.mem_map] at hy
      obtain ⟨j, hj, rfl⟩ := hy
      rw [List.mem_range] at hj
      split at hfy
      · cases hfy
      · rename_i hy0
        split at hfy
        · rename_i hob
          injection hfy with he
          rw [he] at hob
          have h1 := congrArg Pos.x he
          have h2 := congrArg Pos.y he
          have h3 := congrArg Pos.invalid he
          simp only at h1 h2 h3
          exact ⟨by omega, by omega, by omega, by omega, h3.symm, hob⟩
        · cases hfy
  · rintro ⟨hx1, hx2, hy1, hy2, rfl, hob⟩
    refine ⟨(qx : Int), ?_, ?_⟩
    · rw [List.mem_map]
      exact ⟨((qx : Int) - ((c.x : Int) - 2)).toNat, by rw [List.mem_range]; omega, by omega⟩
    · rw [if_neg (by omega : ¬(qx : Int) < 0)]
      rw [List.mem_filterMap]
      refine ⟨(qy : Int), ?_, ?_⟩
      · rw [List.mem_map]
        exact ⟨((qy : Int) - ((c.y : Int) - 2)).toNat, by rw [List.mem_range]; omega, by omega⟩
      · have hxx : ((qx : Int)).toNat = qx := Int.toNat_natCast qx
        have hyy : ((qy : Int)).toNat = qy := Int.toNat_natCast qy
        rw [if_neg (by omega : ¬(qy : Int) < 0), hxx, hyy, hob]
        exact if_pos rfl

theorem explodeStep_frame (wa : World) {i id : Nat} (h : id ≠ i) :
    (explodeStep wa id).explode.getD i (false, false) = wa.explode.getD i (false, false) ∧
    (explodeStep wa id).position.getD i [] = wa.position.getD i [] ∧
    (explodeStep wa id).velocity.getD i (0, .None) = wa.velocity.getD i (0, .None) := by
  simp only [explodeStep]
  exact ⟨getD_set_ne _ _ _ h, getD_set_ne _ _ _ h, getD_set_ne _ _ _ h⟩

theorem explodeStep_lifetime (wa : World) (id : Nat) :
    (explodeStep wa id).lifetime = wa.lifetime := rfl

theorem explodeStep_lengths (wa : World) (id : Nat) :
    (explodeStep wa id).explode.length = wa.explode.length ∧
    (explodeStep wa id).position.length = wa.position.length ∧
    (explodeStep wa id).velocity.length = wa.velocity.length := by
  simp only [explodeStep]
  exact ⟨List.length_set .., List.length_set .., List.length_set ..⟩

theorem explodeStep_solidFrame {w wa : World} (hsf : solidFrame w wa) {id : Nat}
    (hns : w.lifetime.getD id .Permanent ≠ .Solid) :
    solidFrame w (explodeStep wa id) := by
  refine ⟨hsf.1, hsf.2.1, hsf.2.2.1, fun i hi => ?_⟩
  have hne : id ≠ i := fun hc => hns (hc ▸ hi)
  rw [(explodeStep_frame wa hne).2.1]
  exact hsf.2.2.2 i hi

theorem explodeFold_frame (l : List Nat) (wb : World) (id : Nat) (h : id ∉ l) :
    (l.foldl explodeStep wb).explode.getD id (false, false) =
        wb.explode.getD id (false, false) ∧
    (l.foldl explodeStep wb).position.getD id [] = wb.position.getD id [] ∧
    (l.foldl explodeStep wb).velocity.getD id (0, .None) =
        wb.velocity.getD id (0, .None) := by
  induction l generalizing wb with
  | nil => exact ⟨rfl, rfl, rfl⟩
  | cons b l ih =>
    have hb : b ≠ id := fun hc => h (hc ▸ List.mem_cons_self b l)
    have hstep := explodeStep_frame wb hb
    have hrest := ih (explodeStep wb b) (fun hc => h (List.mem_cons_of_mem b hc))
    exact ⟨hrest.1.trans hstep.1, hrest.2.1.trans hstep.2.1, hrest.2.2.trans hstep.2.2⟩

theorem explodeFold_mem (w : World) :
    ∀ (l : List Nat) (wa : World) (id : Nat), l.Nodup → id ∈ l →
      solidFrame w wa →
      (∀ j ∈ l, w.lifetime.getD j .Permanent ≠ .Solid) →
      id < wa.explode.length → id < wa.position.length → id < wa.velocity.length →
      (l.foldl explodeStep wa).explode.getD id (false, false) =
          ((wa.explode.getD id (false, false)).1, true) ∧
      (l.foldl explodeStep wa).velocity.getD id (0, .None) = (0, .None) ∧
      (l.foldl explodeStep wa).position.getD id [] =
          explosion w ((wa.position.getD id []).getD 0 Pos.nil)
  | a :: l, wa, id, hn, hm, hsf, hns, hide, hidp, hidv => by
    rcases List.mem_cons.mp hm with rfl | hmem
    · have hnotin : id ∉ l := (List.nodup_cons.mp hn).1
      have h0 := explodeFold_frame l (explodeStep wa id) id hnotin
      refine ⟨h0.1.trans ?_, h0.2.2.trans ?_, h0.2.1.trans ?_⟩
      · simp only [explodeStep]
        exact getD_set_self _ _ _ (by simpa using hide)
      · simp only [explodeStep]
        exact getD_set_self _ _ _ (by simpa using hidv)
      · simp only [explodeStep]
        rw [getD_set_self _ _ _ (by simpa using hidp)]
        have hsf1 : solidFrame w
            { wa with explode := wa.explode.set id ((wa.explode.getD id (false, false)).1, true) } :=
          ⟨hsf.1, hsf.2.1, hsf.2.2.1, fun i hi => hsf.2.2.2 i hi⟩
        rw [explosion_congr hsf1]
    · have ha : a ≠ id := fun hc => (List.nodup_cons.mp hn).1 (hc ▸ hmem)
      have hstep := explodeStep_frame wa ha
      have hlen := explodeStep_lengths wa a
      have hsf' := explodeStep_solidFrame hsf (hns a (List.mem_cons_self a l))
      have := explodeFold_mem w l (explodeStep wa a) id (List.nodup_cons.mp hn).2 hmem hsf'
        (fun j hj => hns j (List.mem_cons_of_mem a hj))
        (hlen.1 ▸ hide) (hlen.2.1 ▸ hidp) (hlen.2.2 ▸ hidv)
      rw [hstep.1, hstep.2.1] at this
      exact this

/-- C5: when an explodable entity (will-explode set, not yet exploding) whose
`Temporary` remaining ticks are at or below `EXPLODE_DURATION` detonates, the
Explode system sets `is_exploding`, zeroes its velocity, and replaces its
position list with `explosion` around its first occupied cell — which
contains exactly those cells of the 25-cell square `[x-2,x+2] × [y-2,y+2]`
that pass `is_on_board` (each listed cell passes the test, and every
in-range cell passing the test is listed). -/
theorem c5_explode_footprint (w : World) (id : Nat)
    (hwill : (w.explode.getD id (false, false)).1 = true)
    (hnot : (w.explode.getD id (false, false)).2 = false)
    (htemp : ∃ n, w.lifetime.getD id .Permanent = .Temporary n ∧ n ≤ EXPLODE_DURATION)
    (hide : id < w.explode.length) (hidp : id < w.position.length)
    (hidv : id < w.velocity.length) :
    (explodeSystem w).explode.getD id (false, false) = (true, true) ∧
    (explodeSystem w).velocity.getD id (0, .None) = (0, .None) ∧
    (∀ q : Pos, q ∈ (explodeSystem w).position.getD id [] ↔
      ((((w.position.getD id []).getD 0 Pos.nil).x : Int) - 2 ≤ (q.x : Int) ∧
        (q.x : Int) ≤ (((w.position.getD id []).getD 0 Pos.nil).x : Int) + 2 ∧
        (((w.position.getD id []).getD 0 Pos.nil).y : Int) - 2 ≤ (q.y : Int) ∧
        (q.y : Int) ≤ (((w.position.getD id []).getD 0 Pos.nil).y : Int) + 2 ∧
        q.invalid = false ∧ w.isOnBoard q = true)) := by
  have hmem : id ∈ ((List.range w.explode.length).filter fun i =>
      (w.explode.getD i (false, false)).1 && !(w.explode.getD i (false, false)).2).filter
        (fun i => match w.lifetime.getD i .Permanent with
          | .Temporary n => decide (n ≤ EXPLODE_DURATION)
          | _ => false) := by
    obtain ⟨n, hn, hle⟩ := htemp
    refine List.mem_filter.mpr ⟨List.mem_filter.mpr ⟨List.mem_range.mpr hide, ?_⟩, ?_⟩
    · rw [hwill, hnot]; rfl
    · rw [hn]; simpa using hle
  have hnodup : (((List.range w.explode.length).filter fun i =>
      (w.explode.getD i (false, false)).1 && !(w.explode.getD i (false, false)).2).filter
        (fun i => match w.lifetime.getD i .Permanent with
          | .Temporary n => decide (n ≤ EXPLODE_DURATION)
          | _ => false)).Nodup :=
    (((List.nodup_range _).filter _).filter _)
  have hns : ∀ j ∈ (((List.range w.explode.length).filter fun i =>
      (w.explode.getD i (false, false)).1 && !(w.explode.getD i (false, false)).2).filter
        (fun i => match w.lifetime.getD i .Permanent with
          | .Temporary n => decide (n ≤ EXPLODE_DURATION)
          | _ => false)), w.lifetime.getD j .Permanent ≠ .Solid := by
    intro j hj hsol
    have := (List.mem_filter.mp hj).2
    rw [hsol] at this
    cases this
  have hkey := explodeFold_mem w _ w id hnodup hmem (solidFrame_refl w) hns hide hidp hidv
  have hsys : explodeSystem w = (((List.range w.explode.length).filter fun i =>
      (w.explode.getD i (false, false)).1 && !(w.explode.getD i (false, false)).2).filter
        (fun i => match w.lifetime.getD i .Permanent with
          | .Temporary n => decide (n ≤ EXPLODE_DURATION)
          | _ => false)).foldl explodeStep w := rfl
  rw [hsys]
  refine ⟨by rw [hkey.1, hwill], hkey.2.1, fun q => ?_⟩
  rw [hkey.2.2]
  exact mem_explosion w _ q

/-- Witness for C5: the missile of `explodeWorld` detonates; its flags and
velocity are updated and the cell (9, 5) of the 5×5 square is in the
footprint. -/
theorem c5_explode_footprint_witness :
    (explodeSystem explodeWorld).explode.getD 0 (false, false) = (true, true) ∧
    (explodeSystem explodeWorld).velocity.getD 0 (0, .None) = (0, .None) ∧
    (⟨9, 5, false⟩ : Pos) ∈ (explodeSystem explodeWorld).position.getD 0 [] := by
  have h := c5_explode_footprint explodeWorld 0 (by decide) (by decide)
    ⟨2, by decide, by decide⟩ (by decide) (by decide) (by decide)
  exact ⟨h.1, h.2.1, (h.2.2 ⟨9, 5, false⟩).mpr (by decide)⟩

/-! ## C2: invariant I1 (equal component lengths, atomic factories) -/

theorem foldl_compLengths {α : Type _} (f : World → α → World)
    (hf : ∀ w a, compLengths (f w a) = compLengths w) :
    ∀ (l : List α) (w : World), compLengths (l.foldl f w) = compLengths w
  | [], _ => rfl
  | a :: l, w => (foldl_compLengths f hf l (f w a)).trans (hf w a)

theorem foldl_fst_compLengths {α β : Type _} (f : (World × β) → α → (World × β))
    (hf : ∀ acc a, compLengths (f acc a).1 = compLengths acc.1) :
    ∀ (l : List α) (acc : World × β), compLengths (l.foldl f acc).1 = compLengths acc.1
  | [], _ => rfl
  | a :: l, acc => (foldl_fst_compLengths f hf l (f acc a)).trans (hf acc a)

theorem moveWalkStep_compLengths (id : Nat) (dir : Dir) (q : Nat)
    (acc : World × List (Nat × Pos)) (ip : Nat × Pos) :
    compLengths (moveWalkStep id dir q acc ip).1 = compLengths acc.1 := by
  unfold moveWalkStep
  split <;> simp [compLengths]

theorem commitMove_compLengths (id : Nat) (wa : World) (im : Nat × Pos) :
    compLengths (commitMove id wa im) = compLengths wa := by
  simp [commitMove, compLengths]

theorem moveEntity_compLengths (w : World) (id : Nat) :
    compLengths (moveEntity w id) = compLengths w := by
  simp only [moveEntity]
  split
  · rfl
  · have hfold := foldl_fst_compLengths _
      (moveWalkStep_compLengths id (w.velocity.getD id (0, .None)).2
        (w.velocity.getD id (0, .None)).1)
      (w.position.getD id []).enum (w, ([] : List (Nat × Pos)))
    rw [foldl_compLengths (commitMove id) (commitMove_compLengths id)]
    split
    · split <;> (simp only [compLengths, List.length_set] at hfold ⊢; exact hfold)
    · exact hfold

theorem moveSystem_compLengths (w : World) : compLengths (moveSystem w) = compLengths w :=
  foldl_compLengths moveEntity moveEntity_compLengths _ w

theorem lifetimeStep_compLengths (wa : World) (id : Nat) :
    compLengths (lifetimeStep wa id) = compLengths wa := by
  unfold lifetimeStep
  split
  · split <;> simp [compLengths]
  · rfl

theorem lifetimeSystem_compLengths (w : World) :
    compLengths (lifetimeSystem w) = compLengths w :=
  foldl_compLengths lifetimeStep lifetimeStep_compLengths _ w

theorem killUnshielded_compLengths (w : World) (id : Nat) :
    compLengths (killUnshielded w id) = compLengths w := by
  unfold killUnshielded
  split <;> simp [compLengths]

theorem collisionSystem_compLengths (w : World) :
    compLengths (collisionSystem w) = compLengths w := by
  unfold collisionSystem
  split
  · rfl
  · rw [killUnshielded_compLengths, killUnshielded_compLengths]

theorem shieldUpkeep_compLengths (wa : World) (id : Nat) :
    compLengths (shieldUpkeep wa id) = compLengths wa := by
  simp only [shieldUpkeep]
  split <;> simp [compLengths]

theorem energySystem_compLengths (w : World) :
    compLengths (energySystem w) = compLengths w := by
  unfold energySystem
  rw [foldl_compLengths shieldUpkeep shieldUpkeep_compLengths]
  simp [compLengths]

theorem explodeStep_compLengths (wa : World) (id : Nat) :
    compLengths (explodeStep wa id) = compLengths wa := by
  simp only [explodeStep]
  simp [compLengths]

theorem explodeSystem_compLengths (w : World) :
    compLengths (explodeSystem w) = compLengths w :=
  foldl_compLengths explodeStep explodeStep_compLengths _ w

theorem tick_compLengths (w : World) (ec : Nat) :
    compLengths (tick w ec).1 = compLengths w := by
  unfold tick
  dsimp only
  rw [explodeSystem_compLengths]
  have h3 : compLengths (collisionSystem (lifetimeSystem (moveSystem w))) = compLengths w := by
    rw [collisionSystem_compLengths, lifetimeSystem_compLengths, moveSystem_compLengths]
  split
  · rw [energySystem_compLengths, h3]
  · exact h3

theorem I1_of_compLengths {w w' : World} (h : compLengths w' = compLengths w)
    (h1 : I1 w) : I1 w' := by
  simp only [compLengths, List.cons.injEq, and_true] at h
  unfold I1 at h1
  obtain ⟨e1, e2, e3, e4, e5, e6, e7, e8, e9, e10, e11⟩ := h
  obtain ⟨f1, f2, f3, f4, f5, f6, f7, f8, f9, f10⟩ := h1
  unfold I1
  refine ⟨?_, ?_, ?_, ?_, ?_, ?_, ?_, ?_, ?_, ?_⟩ <;> omega

theorem newPlayer_I1 {w : World} (n t : String) (c : Nat) (h : I1 w) :
    I1 (newPlayer w n t c).1 := by
  unfold I1 at h ⊢
  simp only [newPlayer, List.length_append, List.length_cons, List.length_nil]
  omega

theorem newMissile_I1 {w w' : World} {p : Pos} {d : Dir} {c : Nat} (h : I1 w)
    (hs : newMissile w p d c = some w') : I1 w' := by
  unfold newMissile at hs
  by_cases hb : (!(w.isOnBoard (p.moved 1 d))) = true
  · rw [if_pos hb] at hs
    cases hs
    exact h
  · rw [if_neg hb] at hs
    cases d
    · cases hs
    all_goals {
      cases hs
      unfold I1 at h ⊢
      simp only [List.length_append, List.length_cons, List.length_nil]
      omega }

theorem newRay_I1 {w : World} (p : Pos) (d : Dir) (c : Nat) (h : I1 w) :
    I1 (newRay w p d c) := by
  unfold I1 at h ⊢
  simp only [newRay, List.length_append, List.length_cons, List.length_nil]
  omega

theorem newBar_I1 {w : World} (p : Pos) (d : Dir) (h : I1 w) :
    I1 (newBar w p d) := by
  unfold I1 at h ⊢
  simp only [newBar, List.length_append, List.length_cons, List.length_nil]
  omega

theorem foldl_I1 {α : Type _} (f : World → α → World)
    (hf : ∀ w a, I1 w → I1 (f w a)) :
    ∀ (l : List α) (w : World), I1 w → I1 (l.foldl f w)
  | [], _, h => h
  | a :: l, w, h => foldl_I1 f hf l (f w a) (hf w a h)

theorem reset_I1 (w : World) : I1 w.reset := by
  unfold World.reset addObstacles addPlayers
  apply foldl_I1 _ (fun wa p hp => newBar_I1 _ _ hp)
  exact newPlayer_I1 _ _ _ (newPlayer_I1 _ _ _ (by unfold I1; simp))

theorem applyOp_I1 {w w' : World} {op : Op} (h : I1 w)
    (hs : applyOp w op = some w') : I1 w' := by
  cases op with
  | player n t c => cases hs; exact newPlayer_I1 n t c h
  | missile p d c => exact newMissile_I1 h hs
  | ray p d c => cases hs; exact newRay_I1 p d c h
  | bar p d => cases hs; exact newBar_I1 p d h
  | reset => cases hs; exact reset_I1 w
  | tickOp ec => cases hs; exact I1_of_compLengths (tick_compLengths w ec) h

/-- C2: starting from any world satisfying I1, after any sequence of factory
calls (`new_player`, `new_missile`, `new_ray`, `new_bar`, via reset or input
handling) and system-pipeline ticks, all eleven component vectors still have
equal length; a rejected `new_missile` appends nothing (it is counted here
as a completed no-op call), so no factory ever appends a partial row. -/
theorem c2_i1_invariant : ∀ (ops : List Op) (w w' : World),
    I1 w → runOps ops w = some w' → I1 w'
  | [], w, w', h, hs => by cases hs; exact h
  | op :: ops, w, w', h, hs => by
    unfold runOps at hs
    rcases ho : applyOp w op with _ | wm
    · rw [ho] at hs
      cases hs
    · rw [ho] at hs
      exact c2_i1_invariant ops wm w' (applyOp_I1 h ho) hs

/-- Witness for C2: a concrete sequence exercising every factory, two ticks
and a reset, starting from the fresh 30×12 world. -/
theorem c2_i1_invariant_witness : I1 demoResult :=
  c2_i1_invariant demoOps (emptyWorld 30 12) demoResult (by decide) (by decide)

/-! ## Move system machinery (C4, C3) -/

theorem set_getD_self {α : Type _} : ∀ (l : List α) (i : Nat) (d : α),
    l.set i (l.getD i d) = l
  | [], _, _ => rfl
  | _ :: _, 0, _ => rfl
  | a :: l, i + 1, d => by
    show a :: l.set i (l.getD i d) = a :: l
    rw [set_getD_self l i d]

theorem walk_congr {w wa : World} (h : solidFrame w wa) (dir : Dir) :
    ∀ (n : Nat) (p : Pos), walk wa dir n p = walk w dir n p
  | 0, _ => rfl
  | n + 1, p => by
    unfold walk
    rw [isOnBoard_congr h]
    split
    · exact walk_congr h dir n _
    · rfl

theorem walk_isOnBoard {w : World} {dir : Dir} :
    ∀ {n : Nat} {p c : Pos}, n ≠ 0 → walk w dir n p = some c →
      w.isOnBoard c = true := by
  intro n
  induction n with
  | zero => intro p c h; cases h rfl
  | succ n ih =>
    intro p c _ hw
    unfold walk at hw
    split at hw
    · rename_i hob
      rcases Nat.eq_zero_or_pos n with hn | hn
      · subst hn
        cases hw
        exact hob
      · exact ih (Nat.pos_iff_ne_zero.mp hn) hw
    · cases hw

theorem rowExcept_refl (w : World) (id : Nat) : rowExcept w id w :=
  ⟨w.position.getD id [], by
    show w = { w with position := w.position.set id (w.position.getD id []) }
    rw [set_getD_self]⟩

theorem rowExcept_solidFrame {w wa : World} {id : Nat} (h : rowExcept w id wa)
    (hns : w.lifetime.getD id .Permanent ≠ .Solid) : solidFrame w wa := by
  obtain ⟨r, rfl⟩ := h
  refine ⟨rfl, rfl, rfl, fun i hi => ?_⟩
  have hne : id ≠ i := fun hc => hns (hc ▸ hi)
  exact getD_set_ne _ _ _ hne

theorem rowExcept_fields {w wa : World} {id : Nat} (h : rowExcept w id wa) :
    wa.velocity = w.velocity ∧ wa.alive = w.alive ∧ wa.bounce = w.bounce ∧
    wa.lifetime = w.lifetime ∧ wa.explode = w.explode ∧
    (∀ j, j ≠ id → wa.position.getD j [] = w.position.getD j []) ∧
    wa.position.length = w.position.length := by
  obtain ⟨r, rfl⟩ := h
  exact ⟨rfl, rfl, rfl, rfl, rfl,
    fun j hj => getD_set_ne _ _ _ (fun hc => hj hc.symm), List.length_set ..⟩

theorem rowExcept_trans_set {w : World} {id : Nat} {wa : World}
    (h : rowExcept w id wa) (r' : List Pos) :
    rowExcept w id { wa with position := wa.position.set id r' } := by
  obtain ⟨r, rfl⟩ := h
  exact ⟨r', by simp [List.set_set]⟩

theorem flag_getD_set_self (l : List Pos) (k : Nat) :
    ((l.set k (flagInvalid (l.getD k Pos.nil))).getD k Pos.nil) =
      flagInvalid (l.getD k Pos.nil) := by
  by_cases hk : k < l.length
  · exact getD_set_self l _ _ hk
  · rw [List.set_eq_of_length_le (by omega)]
    rw [List.getD_eq_getElem?_getD, List.getElem?_eq_none (by omega)]
    rfl

/-- The inner walk-and-flag fold of `move_system` over an index-tagged tail
of the position list: the accumulated moves are the successful walks (tagged
with their index), processed indices are flagged when their walk fails and
left alone when it succeeds, and unprocessed indices are untouched. -/
theorem moveFold_go (w : World) (id : Nat) (dir : Dir) (q : Nat)
    (hns : w.lifetime.getD id .Permanent ≠ .Solid) :
    ∀ (ps : List Pos) (k : Nat) (wa : World) (ms : List (Nat × Pos)),
      rowExcept w id wa →
      rowExcept w id ((List.enumFrom k ps).foldl (moveWalkStep id dir q) (wa, ms)).1 ∧
      ((List.enumFrom k ps).foldl (moveWalkStep id dir q) (wa, ms)).2 =
        ms ++ (List.enumFrom k ps).filterMap
          (fun ip => (walk w dir q ip.2).map fun c => (ip.1, c)) ∧
      ((((List.enumFrom k ps).foldl (moveWalkStep id dir q) (wa, ms)).1.position.getD
          id []).length = (wa.position.getD id []).length) ∧
      (∀ j, j < k ∨ k + ps.length ≤ j →
        (((List.enumFrom k ps).foldl (moveWalkStep id dir q) (wa, ms)).1.position.getD
            id []).getD j Pos.nil = (wa.position.getD id []).getD j Pos.nil) ∧
      (∀ i, i < ps.length →
        (walk w dir q (ps.getD i Pos.nil) = Option.none →
          (((List.enumFrom k ps).foldl (moveWalkStep id dir q) (wa, ms)).1.position.getD
              id []).getD (k + i) Pos.nil =
            flagInvalid ((wa.position.getD id []).getD (k + i) Pos.nil)) ∧
        (∀ c, walk w dir q (ps.getD i Pos.nil) = some c →
          (((List.enumFrom k ps).foldl (moveWalkStep id dir q) (wa, ms)).1.position.getD
              id []).getD (k + i) Pos.nil = (wa.position.getD id []).getD (k + i) Pos.nil))
  | [], k, wa, ms, hre => by
    refine ⟨hre, by simp, rfl, fun j _ => rfl, fun i hi => absurd hi (by simp)⟩
  | p :: ps, k, wa, ms, hre => by
    have hwalk : walk wa dir q p = walk w dir q p :=
      walk_congr (rowExcept_solidFrame hre hns) dir q p
    have hfold : (List.enumFrom k (p :: ps)).foldl (moveWalkStep id dir q) (wa, ms) =
        (List.enumFrom (k + 1) ps).foldl (moveWalkStep id dir q)
          (moveWalkStep id dir q (wa, ms) (k, p)) := rfl
    have hfm : (List.enumFrom k (p :: ps)).filterMap
        (fun ip => (walk w dir q ip.2).map fun c => (ip.1, c)) =
        ((walk w dir q p).map fun c => (k, c)).toList ++ (List.enumFrom (k + 1) ps).filterMap
          (fun ip => (walk w dir q ip.2).map fun c => (ip.1, c)) := by
      show List.filterMap _ ((k, p) :: List.enumFrom (k + 1) ps) = _
      rcases hc : walk w dir q p with _ | c <;> simp [List.filterMap_cons, hc]
    rcases hcase : walk w dir q p with _ | c
    · have hstep : moveWalkStep id dir q (wa, ms) (k, p) =
          ({ wa with
              position := wa.position.set id
                ((wa.position.getD id []).set k
                  (flagInvalid ((wa.position.getD id []).getD k Pos.nil))) }, ms) := by
        unfold moveWalkStep
        rw [hwalk, hcase]
      have hre' : rowExcept w id
          { wa with
            position := wa.position.set id
              ((wa.position.getD id []).set k
                (flagInvalid ((wa.position.getD id []).getD k Pos.nil))) } :=
        rowExcept_trans_set hre _
      have hrow' : ({ wa with
          position := wa.position.set id
            ((wa.position.getD id []).set k
              (flagInvalid ((wa.position.getD id []).getD k Pos.nil))) } : World).position.getD
            id [] = (wa.position.getD id []).set k
              (flagInvalid ((wa.position.getD id []).getD k Pos.nil)) := by
        show (wa.position.set id _).getD id [] = _
        by_cases hidlt : id < wa.position.length
        · exact getD_set_self wa.position _ _ hidlt
        · have hnil : wa.position.getD id [] = [] := by
            rw [List.getD_eq_getElem?_getD, List.getElem?_eq_none (by omega)]
            rfl
          rw [List.set_eq_of_length_le (by omega), hnil]
          rfl
      obtain ⟨ih1, ih2, ih3, ih4, ih5⟩ :=
        moveFold_go w id dir q hns ps (k + 1) _ ms hre'
      rw [hfold, hstep]
      refine ⟨ih1, ?_, ?_, ?_, ?_⟩
      · rw [ih2, hfm, hcase]
        rfl
      · rw [ih3, hrow', List.length_set]
      · intro j hj
        have hj' : j < k + 1 ∨ (k + 1) + ps.length ≤ j := by
          rcases hj with hj | hj
          · exact Or.inl (by omega)
          · refine Or.inr ?_
            simp only [List.length_cons] at hj
            omega
        have hkj : k ≠ j := by
          rcases hj with hj | hj
          · omega
          · simp only [List.length_cons] at hj
            omega
        rw [ih4 j hj', hrow', getD_set_ne _ _ _ hkj]
      · intro i hi
        rcases i with _ | i
        · constructor
          · intro _
            have hk : k + 0 < k + 1 ∨ (k + 1) + ps.length ≤ k + 0 := Or.inl (by omega)
            rw [ih4 _ hk, hrow']
            have := flag_getD_set_self (wa.position.getD id []) k
            simpa using this
          · intro c hc
            rw [show (p :: ps).getD 0 Pos.nil = p from rfl, hcase] at hc
            cases hc
        · have hi' : i < ps.length := by
            simp only [List.length_cons] at hi
            omega
          have hD : (p :: ps).getD (i + 1) Pos.nil = ps.getD i Pos.nil := rfl
          have hidx : k + (i + 1) = (k + 1) + i := by omega
          constructor
          · intro hnone
            rw [hD] at hnone
            have hne : k ≠ (k + 1) + i := by omega
            rw [hidx, (ih5 i hi').1 hnone, hrow', getD_set_ne _ _ _ hne]
          · intro c' hc'
            rw [hD] at hc'
            have hne : k ≠ (k + 1) + i := by omega
            rw [hidx, (ih5 i hi').2 c' hc', hrow', getD_set_ne _ _ _ hne]
    · have hstep : moveWalkStep id dir q (wa, ms) (k, p) = (wa, ms ++ [(k, c)]) := by
        unfold moveWalkStep
        rw [hwalk, hcase]
      obtain ⟨ih1, ih2, ih3, ih4, ih5⟩ :=
        moveFold_go w id dir q hns ps (k + 1) wa (ms ++ [(k, c)]) hre
      rw [hfold, hstep]
      refine ⟨ih1, ?_, ih3, ?_, ?_⟩
      · rw [ih2, hfm, hcase]
        simp
      · intro j hj
        refine ih4 j ?_
        rcases hj with hj | hj
        · exact Or.inl (by omega)
        · refine Or.inr ?_
          simp only [List.length_cons] at hj
          omega
      · intro i hi
        rcases i with _ | i
        · constructor
          · intro hnone
            rw [show (p :: ps).getD 0 Pos.nil = p from rfl, hcase] at hnone
            cases hnone
          · intro c' _
            exact ih4 _ (Or.inl (by omega))
        · have hi' : i < ps.length := by
            simp only [List.length_cons] at hi
            omega
          have hD : (p :: ps).getD (i + 1) Pos.nil = ps.getD i Pos.nil := rfl
          have hidx : k + (i + 1) = (k + 1) + i := by omega
          constructor
          · intro hnone
            rw [hD] at hnone
            rw [hidx]
            exact (ih5 i hi').1 hnone
          · intro c' hc'
            rw [hD] at hc'
            rw [hidx]
            exact (ih5 i hi').2 c' hc'


theorem getD_mem {α : Type _} (l : List α) {i : Nat} (d : α) (h : i < l.length) :
    l.getD i d ∈ l := by
  rw [List.getD_eq_getElem?_getD, List.getElem?_eq_getElem h]
  exact List.getElem_mem ..

theorem getD_nil_of_le (l : List Pos) {j : Nat} (h : l.length ≤ j) :
    l.getD j Pos.nil = Pos.nil := by
  rw [List.getD_eq_getElem?_getD, List.getElem?_eq_none h]
  rfl

theorem snd_mem_of_mem_enumFrom {α : Type _} :
    ∀ {ps : List α} {k : Nat} {ip : Nat × α}, ip ∈ List.enumFrom k ps → ip.2 ∈ ps
  | p :: ps, k, ip, h => by
    rcases List.mem_cons.mp h with rfl | h
    · exact List.mem_cons_self p ps
    · exact List.mem_cons_of_mem p (snd_mem_of_mem_enumFrom h)

/-- `move_system` on one bouncing entity whose every cell-walk fails: the
direction is reversed (step-count kept), the entity stays alive, and every
cell keeps its coordinates but is flagged invalid. -/
theorem moveEntity_bounce (w : World) (id : Nat)
    (hns : w.lifetime.getD id .Permanent ≠ .Solid)
    (hq : (w.velocity.getD id (0, .None)).1 ≠ 0)
    (hb : w.bounce.getD id false = true)
    (hidv : id < w.velocity.length)
    (hfail : ∀ p ∈ w.position.getD id [],
      walk w (w.velocity.getD id (0, .None)).2 (w.velocity.getD id (0, .None)).1 p =
        Option.none) :
    (moveEntity w id).velocity.getD id (0, .None) =
      ((w.velocity.getD id (0, .None)).1, (w.velocity.getD id (0, .None)).2.opposite) ∧
    (moveEntity w id).alive = w.alive ∧
    ((moveEntity w id).position.getD id []).length = (w.position.getD id []).length ∧
    (∀ j, ((moveEntity w id).position.getD id []).getD j Pos.nil =
      flagInvalid ((w.position.getD id []).getD j Pos.nil)) := by
  obtain ⟨g1, g2, g3, g4, g5⟩ := moveFold_go w id (w.velocity.getD id (0, .None)).2
    (w.velocity.getD id (0, .None)).1 hns (w.position.getD id []) 0 w []
    (rowExcept_refl w id)
  have hmoves : ((List.enumFrom 0 (w.position.getD id [])).foldl
      (moveWalkStep id (w.velocity.getD id (0, .None)).2
        (w.velocity.getD id (0, .None)).1) (w, [])).2 = [] := by
    rw [g2]
    rw [List.nil_append]
    rw [List.filterMap_eq_nil]
    intro ip hip
    rw [hfail ip.2 (snd_mem_of_mem_enumFrom hip)]
    rfl
  have hME : moveEntity w id = { ((List.enumFrom 0 (w.position.getD id [])).foldl
      (moveWalkStep id (w.velocity.getD id (0, .None)).2
        (w.velocity.getD id (0, .None)).1) (w, [])).1 with
      velocity := (((List.enumFrom 0 (w.position.getD id [])).foldl
        (moveWalkStep id (w.velocity.getD id (0, .None)).2
          (w.velocity.getD id (0, .None)).1) (w, [])).1).velocity.set id
        ((w.velocity.getD id (0, .None)).1, (w.velocity.getD id (0, .None)).2.opposite) } := by
    simp only [moveEntity, List.enum_eq_enumFrom]
    rw [if_neg hq, hmoves]
    have hbounce : (((List.enumFrom 0 (w.position.getD id [])).foldl
        (moveWalkStep id (w.velocity.getD id (0, .None)).2
          (w.velocity.getD id (0, .None)).1) (w, [])).1).bounce.getD id false = true := by
      rw [(rowExcept_fields g1).2.2.1]
      exact hb
    rw [if_pos (show (List.isEmpty ([] : List (Nat × Pos))) = true from rfl),
      if_pos hbounce]
    rfl
  have hvel := (rowExcept_fields g1).1
  have hpos11 := (rowExcept_fields g1).2.1
  rw [hME]
  refine ⟨?_, ?_, ?_, ?_⟩
  · show ((((List.enumFrom 0 (w.position.getD id [])).foldl _ (w, [])).1).velocity.set id
      _).getD id (0, .None) = _
    rw [hvel]
    exact getD_set_self w.velocity _ _ hidv
  · exact hpos11
  · exact g3
  · intro j
    by_cases hj : j < (w.position.getD id []).length
    · have := (g5 j hj).1 (hfail _ (getD_mem _ _ hj))
      simpa using this
    · rw [g4 j (Or.inr (by omega))]
      rw [getD_nil_of_le _ (by omega)]
      rfl

theorem moveEntity_of_qzero (w : World) (id : Nat)
    (h : (w.velocity.getD id (0, .None)).1 = 0) : moveEntity w id = w := by
  simp only [moveEntity]
  rw [if_pos h]

theorem entityTouched_refl (w : World) (id : Nat) : entityTouched w id w :=
  ⟨rfl, rfl, rfl, rfl, rfl, rfl, rfl, rfl, rfl, rfl, rfl, rfl,
    fun _ _ => rfl, fun _ _ => rfl, fun _ _ => rfl⟩

theorem eT_position_set (w : World) (id : Nat) {wa : World} (h : entityTouched w id wa)
    (r : List Pos) :
    entityTouched w id { wa with position := wa.position.set id r } := by
  obtain ⟨h1, h2, h3, h4, h5, h6, h7, h8, h9, h10, h11, h12, h13, h14, h15⟩ := h
  refine ⟨h1, h2, h3, h4, h5, h6, h7, h8, h9, ?_, h11, h12, ?_, h14, h15⟩
  · rw [List.length_set]; exact h10
  · intro j hj
    rw [getD_set_ne _ _ _ (fun hc => hj hc.symm)]
    exact h13 j hj

theorem eT_velocity_set (w : World) (id : Nat) {wa : World} (h : entityTouched w id wa)
    (v : Nat × Dir) :
    entityTouched w id { wa with velocity := wa.velocity.set id v } := by
  obtain ⟨h1, h2, h3, h4, h5, h6, h7, h8, h9, h10, h11, h12, h13, h14, h15⟩ := h
  refine ⟨h1, h2, h3, h4, h5, h6, h7, h8, h9, h10, ?_, h12, h13, ?_, h15⟩
  · rw [List.length_set]; exact h11
  · intro j hj
    rw [getD_set_ne _ _ _ (fun hc => hj hc.symm)]
    exact h14 j hj

theorem eT_alive_set (w : World) (id : Nat) {wa : World} (h : entityTouched w id wa)
    (b : Bool) :
    entityTouched w id { wa with alive := wa.alive.set id b } := by
  obtain ⟨h1, h2, h3, h4, h5, h6, h7, h8, h9, h10, h11, h12, h13, h14, h15⟩ := h
  refine ⟨h1, h2, h3, h4, h5, h6, h7, h8, h9, h10, h11, ?_, h13, h14, ?_⟩
  · rw [List.length_set]; exact h12
  · intro j hj
    rw [getD_set_ne _ _ _ (fun hc => hj hc.symm)]
    exact h15 j hj

theorem eT_moveWalkFold (w : World) (id : Nat) (dir : Dir) (q : Nat) :
    ∀ (l : List (Nat × Pos)) (acc : World × List (Nat × Pos)),
      entityTouched w id acc.1 →
      entityTouched w id ((l.foldl (moveWalkStep id dir q) acc).1)
  | [], _, h => h
  | ip :: l, acc, h => by
    refine eT_moveWalkFold w id dir q l (moveWalkStep id dir q acc ip) ?_
    unfold moveWalkStep
    split
    · exact h
    · exact eT_position_set w id h _

theorem eT_commitFold (w : World) (id : Nat) :
    ∀ (ms : List (Nat × Pos)) (wa : World), entityTouched w id wa →
      entityTouched w id (ms.foldl (commitMove id) wa)
  | [], _, h => h
  | im :: ms, wa, h =>
    eT_commitFold w id ms (commitMove id wa im) (eT_position_set w id h _)

theorem moveEntity_touched (w : World) (id : Nat) :
    entityTouched w id (moveEntity w id) := by
  by_cases hq : (w.velocity.getD id (0, .None)).1 = 0
  · rw [moveEntity_of_qzero w id hq]
    exact entityTouched_refl w id
  · simp only [moveEntity]
    rw [if_neg hq]
    apply eT_commitFold
    have h1 := eT_moveWalkFold w id (w.velocity.getD id (0, .None)).2
      (w.velocity.getD id (0, .None)).1 (w.position.getD id []).enum (w, [])
      (entityTouched_refl w id)
    split
    · split
      · exact eT_velocity_set w id h1 _
      · exact eT_alive_set w id h1 _
    · exact h1

theorem eT_moveFrame {w wa : World} {id i : Nat} (hne : i ≠ id)
    (hf : moveFrame w id wa) (ht : entityTouched wa i (moveEntity wa i)) :
    moveFrame w id (moveEntity wa i) := by
  obtain ⟨t1, t2, t3, t4, t5, t6, t7, t8, t9, t10, t11, t12, t13, t14, t15⟩ := ht
  obtain ⟨f1, f2, f3, f4, f5, f6, f7, f8, f9, f10, f11, f12, f13, f14, f15⟩ := hf
  exact ⟨t1.trans f1, t2.trans f2, t3.trans f3, t4.trans f4, t5.trans f5, t6.trans f6,
    t7.trans f7, t8.trans f8, t9.trans f9, t10.trans f10, t11.trans f11, t12.trans f12,
    (t13 id (fun hc => hne hc.symm)).trans f13,
    (t14 id (fun hc => hne hc.symm)).trans f14,
    (t15 id (fun hc => hne hc.symm)).trans f15⟩

theorem moveEntity_velStill {wa : World} (h : velStill wa) (i : Nat) :
    velStill (moveEntity wa i) := by
  intro j hsol
  have ht := moveEntity_touched wa i
  rw [ht.2.2.1] at hsol
  by_cases hij : j = i
  · subst hij
    by_cases hS : wa.lifetime.getD j .Permanent = .Solid
    · rw [moveEntity_of_qzero wa j (h j hS)]
      exact h j hS
    · exact absurd hsol hS
  · rw [ht.2.2.2.2.2.2.2.2.2.2.2.2.2.1 j hij]
    exact h j hsol

theorem moveEntity_sf {w wa : World} (hsf : solidFrame w wa) (hvs : velStill wa)
    (i : Nat) : solidFrame w (moveEntity wa i) := by
  by_cases hsol : wa.lifetime.getD i .Permanent = .Solid
  · rw [moveEntity_of_qzero wa i (hvs i hsol)]
    exact hsf
  · have ht := moveEntity_touched wa i
    refine ⟨ht.1.trans hsf.1, ht.2.1.trans hsf.2.1, ht.2.2.1.trans hsf.2.2.1,
      fun j hj => ?_⟩
    have hja : wa.lifetime.getD j .Permanent = .Solid := by
      rw [hsf.2.2.1]; exact hj
    have hji : j ≠ i := fun hc => hsol (hc ▸ hja)
    rw [ht.2.2.2.2.2.2.2.2.2.2.2.2.1 j hji]
    exact hsf.2.2.2 j hj

theorem moveFrame_refl (w : World) (id : Nat) : moveFrame w id w :=
  ⟨rfl, rfl, rfl, rfl, rfl, rfl, rfl, rfl, rfl, rfl, rfl, rfl, rfl, rfl, rfl⟩

theorem moveFold_entities (w : World) (id : Nat) :
    ∀ (l : List Nat) (wa : World), id ∉ l →
      moveFrame w id wa → velStill wa → solidFrame w wa →
      moveFrame w id (l.foldl moveEntity wa) ∧ velStill (l.foldl moveEntity wa) ∧
      solidFrame w (l.foldl moveEntity wa)
  | [], _, _, hf, hv, hs => ⟨hf, hv, hs⟩
  | i :: l, wa, hnot, hf, hv, hs => by
    have hne : i ≠ id := fun hc => hnot (hc ▸ List.mem_cons_self i l)
    exact moveFold_entities w id l (moveEntity wa i)
      (fun hc => hnot (List.mem_cons_of_mem i hc))
      (eT_moveFrame hne hf (moveEntity_touched wa i))
      (moveEntity_velStill hv i) (moveEntity_sf hs hv i)

theorem moveFold_entities_frame (w' : World) (id : Nat) :
    ∀ (l : List Nat) (wa : World), id ∉ l → moveFrame w' id wa →
      moveFrame w' id (l.foldl moveEntity wa)
  | [], _, _, hf => hf
  | i :: l, wa, hnot, hf => by
    have hne : i ≠ id := fun hc => hnot (hc ▸ List.mem_cons_self i l)
    exact moveFold_entities_frame w' id l (moveEntity wa i)
      (fun hc => hnot (List.mem_cons_of_mem i hc))
      (eT_moveFrame hne hf (moveEntity_touched wa i))

theorem getD_of_length_le {α : Type _} (l : List α) {i : Nat} (d : α)
    (h : l.length ≤ i) : l.getD i d = d := by
  rw [List.getD_eq_getElem?_getD, List.getElem?_eq_none h]
  rfl

theorem velStill_of_solidsStill {w : World} (h : solidsStill w = true) : velStill w := by
  intro i hsol
  by_cases hi : i < w.lifetime.length
  · have := List.all_eq_true.mp h i (List.mem_range.mpr hi)
    rw [hsol] at this
    rw [show (Lifetime.Solid == Lifetime.Solid) = true from rfl] at this
    simp only [Bool.not_true, Bool.false_or, beq_iff_eq] at this
    exact this
  · rw [getD_of_length_le _ _ (by omega)] at hsol
    cases hsol

/-! ## C4: bounce reverses direction, flags the cells invalid -/

/-- C4 counterexample: a bouncing entity at the left margin moving left.
The Move pass reverses its direction and does not kill it, but its position
list is *changed*: the cell keeps its coordinates and acquires the
`invalid` flag. -/
theorem c4_counterexample :
    bounceWorld.alive.getD 0 false = true ∧
    bounceWorld.bounce.getD 0 false = true ∧
    bounceWorld.velocity.getD 0 (0, .None) = (1, .Left) ∧
    bounceWorld.position.getD 0 [] = [⟨1, 5, false⟩] ∧
    (moveSystem bounceWorld).velocity.getD 0 (0, .None) = (1, .Right) ∧
    (moveSystem bounceWorld).alive.getD 0 false = true ∧
    (moveSystem bounceWorld).position.getD 0 [] ≠ bounceWorld.position.getD 0 [] ∧
    (moveSystem bounceWorld).position.getD 0 [] = [⟨1, 5, true⟩] := by
  decide

/-- C4 (amended): for an alive, non-`Solid` entity with `bounce = true` and
nonzero velocity step-count, when every occupied cell's walk fails
`is_on_board`, the Move pass sets the direction to the exact opposite
(keeping the step-count), the entity stays alive and does not move — every
cell keeps its coordinates — but each cell is flagged invalid (so the
position value itself does change). -/
theorem c4_bounce_reversal (w : World) (id : Nat)
    (halive : w.alive.getD id false = true)
    (hida : id < w.alive.length)
    (hidv : id < w.velocity.length)
    (hns : w.lifetime.getD id .Permanent ≠ .Solid)
    (hq : (w.velocity.getD id (0, .None)).1 ≠ 0)
    (hb : w.bounce.getD id false = true)
    (hvs : solidsStill w = true)
    (hfail : ∀ p ∈ w.position.getD id [],
      walk w (w.velocity.getD id (0, .None)).2 (w.velocity.getD id (0, .None)).1 p =
        Option.none) :
    (moveSystem w).velocity.getD id (0, .None) =
      ((w.velocity.getD id (0, .None)).1, (w.velocity.getD id (0, .None)).2.opposite) ∧
    (moveSystem w).alive.getD id false = true ∧
    ((moveSystem w).position.getD id []).length = (w.position.getD id []).length ∧
    (∀ j, ((moveSystem w).position.getD id []).getD j Pos.nil =
      flagInvalid ((w.position.getD id []).getD j Pos.nil)) := by
  have hvel := velStill_of_solidsStill hvs
  have hmem : id ∈ aliveEntities w :=
    List.mem_filter.mpr ⟨List.mem_range.mpr hida, halive⟩
  obtain ⟨l1, l2, hsplit⟩ := List.append_of_mem hmem
  have hnd : (aliveEntities w).Nodup := (List.nodup_range _).filter _
  rw [hsplit] at hnd
  have hdisj := (List.nodup_append.mp hnd).2.2
  have hid1 : id ∉ l1 := fun hc => hdisj hc (List.mem_cons_self id l2)
  have hid2 : id ∉ l2 := (List.nodup_cons.mp (List.nodup_append.mp hnd).2.1).1
  have hMS : moveSystem w = l2.foldl moveEntity (moveEntity (l1.foldl moveEntity w) id) := by
    show (aliveEntities w).foldl moveEntity w = _
    rw [hsplit, List.foldl_append]
    rfl
  obtain ⟨hf, hv, hs⟩ := moveFold_entities w id l1 w hid1 (moveFrame_refl w id) hvel
    (solidFrame_refl w)
  obtain ⟨f1, f2, f3, f4, f5, f6, f7, f8, f9, f10, f11, f12, f13, f14, f15⟩ := hf
  have hbc := moveEntity_bounce (l1.foldl moveEntity w) id
    (by rw [f3]; exact hns) (by rw [f14]; exact hq) (by rw [f6]; exact hb)
    (by rw [f11]; exact hidv)
    (by
      intro p hp
      rw [f13] at hp
      rw [f14, walk_congr hs]
      exact hfail p hp)
  rw [f14] at hbc
  have hpost := moveFold_entities_frame (moveEntity (l1.foldl moveEntity w) id) id l2 _
    hid2 (moveFrame_refl _ id)
  obtain ⟨p1, p2, p3, p4, p5, p6, p7, p8, p9, p10, p11, p12, p13, p14, p15⟩ := hpost
  rw [hMS]
  refine ⟨?_, ?_, ?_, ?_⟩
  · rw [p14, hbc.1]
  · rw [p15, hbc.2.1, f15, halive]
  · rw [p13, hbc.2.2.1, f13]
  · intro j
    rw [p13, hbc.2.2.2 j, f13]

/-- Witness for C4 (amended) at the concrete `bounceWorld`. -/
theorem c4_bounce_reversal_witness :
    (moveSystem bounceWorld).velocity.getD 0 (0, .None) =
      ((bounceWorld.velocity.getD 0 (0, .None)).1,
        (bounceWorld.velocity.getD 0 (0, .None)).2.opposite) ∧
    (moveSystem bounceWorld).alive.getD 0 false = true ∧
    ((moveSystem bounceWorld).position.getD 0 []).length =
      (bounceWorld.position.getD 0 []).length ∧
    (∀ j, ((moveSystem bounceWorld).position.getD 0 []).getD j Pos.nil =
      flagInvalid ((bounceWorld.position.getD 0 []).getD j Pos.nil)) :=
  c4_bounce_reversal bounceWorld 0 (by decide) (by decide) (by decide) (by decide)
    (by decide) (by decide) (by decide) (by decide)

/-! ## C1: collision resolution -/

theorem zip_self {α : Type _} : ∀ l : List α, l.zip l = l.map fun a => (a, a)
  | [] => rfl
  | a :: l => by
    show (a, a) :: l.zip l = (a, a) :: l.map fun a => (a, a)
    rw [zip_self l]

theorem enum_range (n : Nat) : (List.range n).enum = (List.range n).map fun i => (i, i) := by
  rw [List.enum_eq_zip_range, List.length_range, zip_self]

theorem drop_range {n m : Nat} (h : m ≤ n) :
    (List.range n).drop m = List.range' m (n - m) := by
  have happ := List.range'_append 0 m (n - m) 1
  rw [Nat.zero_add, Nat.one_mul] at happ
  have h2 : (n - m) + m = n := by omega
  rw [h2] at happ
  have hd := List.drop_left (List.range' 0 m) (List.range' m (n - m))
  rw [List.length_range'] at hd
  rw [List.range_eq_range', ← happ]
  exact hd

/-- Under an all-alive start, `collision_system`'s scan finds exactly the
lexicographically first colliding pair. -/
theorem collisionFirst_eq (w : World) (A B : Nat)
    (hall : ∀ i, i < w.alive.length → w.alive.getD i false = true)
    (hAB : A < B) (hBn : B < w.alive.length)
    (hhit : posHit (w.position.getD A []) (w.position.getD B []) = true)
    (hfirst : ∀ i j, i < j → j < w.alive.length →
      (i < A ∨ (i = A ∧ j < B)) →
      posHit (w.position.getD i []) (w.position.getD j []) = false) :
    collisionFirst w (aliveEntities w) = some (A, B) := by
  have hae : aliveEntities w = List.range w.alive.length :=
    List.filter_eq_self.mpr fun a ha => hall a (List.mem_range.mp ha)
  rw [hae]
  unfold collisionFirst
  rw [enum_range, List.findSome?_map]
  have hGA : (((List.range w.alive.length).drop A).find? fun id2 =>
      decide (A ≠ id2) && posHit (w.position.getD A []) (w.position.getD id2 [])) =
        some B := by
    rw [drop_range (by omega)]
    have hsplit2 : List.range' A (w.alive.length - A) =
        List.range' A (B - A) ++ List.range' B (w.alive.length - B) := by
      have happ := List.range'_append A (B - A) (w.alive.length - B) 1
      have h1 : A + 1 * (B - A) = B := by omega
      have h2 : (w.alive.length - B) + (B - A) = w.alive.length - A := by omega
      rw [h1, h2] at happ
      exact happ.symm
    rw [hsplit2, List.find?_append]
    have hl : (List.find? (fun id2 => decide (A ≠ id2) &&
        posHit (w.position.getD A []) (w.position.getD id2 []))
          (List.range' A (B - A))) = none := by
      rw [List.find?_eq_none]
      intro j hj
      obtain ⟨k, hk, rfl⟩ := List.mem_range'.mp hj
      simp only [Nat.one_mul]
      rcases Nat.eq_zero_or_pos k with rfl | hkpos
      · simp
      · rw [hfirst A (A + k) (by omega) (by omega) (Or.inr ⟨rfl, by omega⟩)]
        simp
    rw [hl, Option.none_or]
    have hr : List.range' B (w.alive.length - B) =
        B :: List.range' (B + 1) (w.alive.length - B - 1) := by
      rw [← List.range'_succ]
      congr 1
      omega
    rw [hr]
    rw [List.find?_cons_of_pos _ (by
      rw [hhit]
      simp only [Bool.and_true, decide_eq_true_eq]
      omega)]
  have hrange : List.range w.alive.length =
      List.range' 0 A ++ List.range' A (w.alive.length - A) := by
    have happ := List.range'_append 0 A (w.alive.length - A) 1
    have happ' : List.range' 0 A ++ List.range' A (w.alive.length - A) =
        List.range' 0 w.alive.length := by
      have h1 : 0 + 1 * A = A := by omega
      have h2 : (w.alive.length - A) + A = w.alive.length := by omega
      rw [h1, h2] at happ
      exact happ
    rw [List.range_eq_range', happ']
  nth_rewrite 2 [hrange]
  rw [List.findSome?_append]
  have hnone : (List.findSome? ((fun e : Nat × Nat =>
      Option.map (fun id2 => (e.1, id2)) ((List.drop e.2 (List.range w.alive.length)).find?
        fun id2 => decide (e.1 ≠ id2) &&
          posHit (w.position.getD e.1 []) (w.position.getD id2 []))) ∘ fun i => (i, i))
      (List.range' 0 A)) = none := by
    rw [List.findSome?_eq_none]
    intro i hi
    obtain ⟨k, hk, rfl⟩ := List.mem_range'.mp hi
    dsimp only [Function.comp]
    simp only [Nat.zero_add, Nat.one_mul] at hk ⊢
    rw [drop_range (by omega), List.find?_eq_none.mpr ?_]
    · rfl
    · intro j hj
      obtain ⟨k2, hk2, rfl⟩ := List.mem_range'.mp hj
      simp only [Nat.one_mul]
      rcases Nat.eq_zero_or_pos k2 with rfl | hk2pos
      · simp
      · rw [hfirst k (k + k2) (by omega) (by omega) (Or.inl hk)]
        simp
  have htail : List.range' A (w.alive.length - A) =
      A :: List.range' (A + 1) (w.alive.length - A - 1) := by
    rw [← List.range'_succ]
    congr 1
    omega
  rw [hnone, Option.none_or, htail, List.findSome?_cons]
  dsimp only [Function.comp]
  rw [hGA]
  rfl

/-- C1 counterexample: four alive entities with two colliding pairs; the
unshielded pair (2, 3) shares cell (8,8) but neither dies, because the scan
stops after resolving the first pair (0, 1). -/
theorem c1_counterexample :
    collideWorld.alive = [true, true, true, true] ∧
    collideWorld.shield = [false, true, false, false] ∧
    posHit (collideWorld.position.getD 2 []) (collideWorld.position.getD 3 []) = true ∧
    (collisionSystem collideWorld).alive.getD 2 false = true ∧
    (collisionSystem collideWorld).alive.getD 3 false = true ∧
    (collisionSystem collideWorld).alive.getD 0 false = false ∧
    (collisionSystem collideWorld).alive.getD 1 false = true := by
  decide

/-- C1 (amended): in a Collision pass whose entities are all alive, only the
first colliding pair (A, B) in the ascending-id scan order is resolved: its
unshielded members become not-alive, a shielded member survives, and every
other entity — including members of later colliding pairs — keeps its alive
flag for that pass. -/
theorem c1_first_collision (w : World) (A B : Nat)
    (hall : ∀ i, i < w.alive.length → w.alive.getD i false = true)
    (hAB : A < B) (hBn : B < w.alive.length)
    (hhit : posHit (w.position.getD A []) (w.position.getD B []) = true)
    (hfirst : ∀ i j, i < j → j < w.alive.length →
      (i < A ∨ (i = A ∧ j < B)) →
      posHit (w.position.getD i []) (w.position.getD j []) = false) :
    ((collisionSystem w).alive.getD A false = w.shield.getD A false) ∧
    ((collisionSystem w).alive.getD B false = w.shield.getD B false) ∧
    (∀ k, k ≠ A → k ≠ B →
      (collisionSystem w).alive.getD k false = w.alive.getD k false) := by
  have hCS : collisionSystem w = killUnshielded (killUnshielded w A) B := by
    unfold collisionSystem
    rw [collisionFirst_eq w A B hall hAB hBn hhit hfirst]
  have hKA : ∀ (wk : World) (i j : Nat), i ≠ j →
      (killUnshielded wk i).alive.getD j false = wk.alive.getD j false := by
    intro wk i j hij
    unfold killUnshielded
    split
    · rfl
    · exact getD_set_ne _ _ _ hij
  have hKs : ∀ (wk : World) (i : Nat), (killUnshielded wk i).shield = wk.shield := by
    intro wk i
    unfold killUnshielded
    split <;> rfl
  have hKself : ∀ (wk : World) (i : Nat), i < wk.alive.length →
      wk.alive.getD i false = true →
      (killUnshielded wk i).alive.getD i false = wk.shield.getD i false := by
    intro wk i hi ha
    unfold killUnshielded
    by_cases hs : wk.shield.getD i false = true
    · rw [if_pos hs, hs]
      exact ha
    · rw [if_neg hs]
      simp only [Bool.not_eq_true] at hs
      rw [hs]
      exact getD_set_self _ _ _ hi
  have hKlen : ∀ (wk : World) (i : Nat),
      (killUnshielded wk i).alive.length = wk.alive.length := by
    intro wk i
    unfold killUnshielded
    split
    · rfl
    · exact List.length_set _ _ _
  rw [hCS]
  refine ⟨?_, ?_, ?_⟩
  · rw [hKA _ B A (by omega)]
    exact hKself w A (by omega) (hall A (by omega))
  · rw [hKself (killUnshielded w A) B
      (by rw [hKlen]; exact hBn)
      (by rw [hKA _ A B (by omega)]; exact hall B hBn), hKs]
  · intro k hkA hkB
    rw [hKA _ B k (fun hc => hkB hc.symm), hKA _ A k (fun hc => hkA hc.symm)]

/-- Witness for C1 (amended): in `collideWorld`, the first pair (0, 1) is
resolved — 0 (unshielded) dies, 1 (shielded) survives — and 2, 3 keep their
alive flags. -/
theorem c1_first_collision_witness :
    ((collisionSystem collideWorld).alive.getD 0 false =
      collideWorld.shield.getD 0 false) ∧
    ((collisionSystem collideWorld).alive.getD 1 false =
      collideWorld.shield.getD 1 false) ∧
    (∀ k, k ≠ 0 → k ≠ 1 →
      (collisionSystem collideWorld).alive.getD k false =
        collideWorld.alive.getD k false) :=
  c1_first_collision collideWorld 0 1 (by decide) (by decide) (by decide) (by decide)
    (by
      intro i j h1 h2 h3
      rcases h3 with h | ⟨rfl, h⟩ <;> omega)

/-! ## C3: board containment machinery -/

theorem alive_getD_set_false_le (l : List Bool) (i j : Nat)
    (h : (l.set i false).getD j false = true) : l.getD j false = true := by
  by_cases hij : i = j
  · subst hij
    by_cases hi : i < l.length
    · rw [getD_set_self _ _ _ hi] at h
      cases h
    · rw [List.set_eq_of_length_le (by omega)] at h
      exact h
  · rw [getD_set_ne _ _ _ hij] at h
    exact h

theorem exists_getD_of_mem (l : List Pos) {p : Pos} (h : p ∈ l) :
    ∃ j, j < l.length ∧ l.getD j Pos.nil = p := by
  obtain ⟨j, hj, he⟩ := List.mem_iff_getElem.mp h
  refine ⟨j, hj, ?_⟩
  rw [List.getD_eq_getElem?_getD, List.getElem?_eq_getElem hj]
  exact he

theorem mem_enumFrom_eq : ∀ (ps : List Pos) (k : Nat) (ip : Nat × Pos),
    ip ∈ List.enumFrom k ps →
    k ≤ ip.1 ∧ ip.1 - k < ps.length ∧ ip.2 = ps.getD (ip.1 - k) Pos.nil
  | [], _, _, h => absurd h (List.not_mem_nil _)
  | p :: ps, k, ip, h => by
    rw [List.enumFrom_cons] at h
    rcases List.mem_cons.mp h with rfl | hmem
    · refine ⟨Nat.le_refl k, ?_, ?_⟩
      · simp
      · rw [Nat.sub_self]
        rfl
    · have ih := mem_enumFrom_eq ps (k + 1) ip hmem
      refine ⟨by omega, ?_, ?_⟩
      · simp only [List.length_cons]
        omega
      · rw [ih.2.2]
        have hk1 : ip.1 - k = (ip.1 - (k + 1)) + 1 := by omega
        rw [hk1, List.getD_cons_succ]

theorem getD_mem_enumFrom : ∀ (ps : List Pos) (k j : Nat), j < ps.length →
    (k + j, ps.getD j Pos.nil) ∈ List.enumFrom k ps
  | [], _, _, h => absurd h (by simp)
  | p :: ps, k, 0, _ => by
    rw [List.enumFrom_cons]
    exact List.mem_cons_self _ _
  | p :: ps, k, j + 1, h => by
    rw [List.enumFrom_cons]
    apply List.mem_cons_of_mem
    have ih := getD_mem_enumFrom ps (k + 1) j (by simpa using h)
    rw [List.getD_cons_succ]
    have heq : k + 1 + j = k + (j + 1) := by omega
    rw [← heq]
    exact ih

theorem enumFrom_fst_lt : ∀ (ps : List Pos) (k : Nat),
    (List.enumFrom k ps).Pairwise (fun a b => a.1 < b.1)
  | [], _ => List.Pairwise.nil
  | p :: ps, k => by
    rw [List.enumFrom_cons]
    refine List.Pairwise.cons ?_ (enumFrom_fst_lt ps (k + 1))
    intro b hb
    have := (mem_enumFrom_eq ps (k + 1) b hb).1
    show k < b.1
    omega

theorem solidsStill_of_velStill {w : World} (h : velStill w) :
    solidsStill w = true := by
  refine List.all_eq_true.mpr fun i _ => ?_
  by_cases hs : w.lifetime.getD i .Permanent = .Solid
  · rw [beq_iff_eq.mpr hs]
    simp only [Bool.not_true, Bool.false_or]
    exact beq_iff_eq.mpr (h i hs)
  · rw [beq_eq_false_iff_ne.mpr hs]
    rfl

theorem contained_of_cellsContained {w : World} (h : cellsContained w = true) :
    contained w := by
  intro id halive hexp hns p hp hpi
  have hid : id < w.alive.length := by
    by_contra hlt
    rw [getD_of_length_le _ _ (by omega)] at halive
    cases halive
  have hall := List.all_eq_true.mp h id (List.mem_range.mpr hid)
  simp only [halive, hexp, Bool.not_true, Bool.false_or, Bool.or_false] at hall
  rw [beq_eq_false_iff_ne.mpr hns, Bool.false_or] at hall
  have hcell := List.all_eq_true.mp hall p hp
  rw [hpi, Bool.false_or] at hcell
  exact hcell

theorem cellsContained_of_contained {w : World} (h : contained w) :
    cellsContained w = true := by
  refine List.all_eq_true.mpr fun id _ => ?_
  by_cases ha : w.alive.getD id false = true
  · by_cases he : (w.explode.getD id (false, false)).2 = true
    · rw [he]
      simp only [Bool.true_or, Bool.or_true]
    · by_cases hs : w.lifetime.getD id .Permanent = .Solid
      · rw [beq_iff_eq.mpr hs]
        simp only [Bool.true_or, Bool.or_true]
      · have hrow : ∀ p ∈ w.position.getD id [], (p.invalid || w.isOnBoard p) = true := by
          intro p hp
          by_cases hpi : p.invalid = true
          · rw [hpi]
            rfl
          · simp only [Bool.not_eq_true] at hpi he
            rw [hpi, Bool.false_or]
            exact h id ha he hs p hp hpi
        rw [List.all_eq_true.mpr hrow]
        simp only [Bool.true_or, Bool.or_true]
  · simp only [Bool.not_eq_true] at ha
    rw [ha]
    rfl

theorem solidHit_same {w wa : World} (h : boardSame w wa) (pos : Pos) :
    wa.solidHit pos = w.solidHit pos := by
  obtain ⟨-, -, hl, hbeq, hp⟩ := h
  unfold World.solidHit
  rw [hl]
  refine Bool.eq_iff_iff.mpr ?_
  simp only [List.any_eq_true, List.mem_range, Bool.and_eq_true, beq_iff_eq]
  constructor
  · rintro ⟨i, hi, hsol, hhit⟩
    have hws : w.lifetime.getD i .Permanent = .Solid := by
      have hb : (w.lifetime.getD i .Permanent == Lifetime.Solid) = true := by
        rw [← hbeq i]
        exact beq_iff_eq.mpr hsol
      exact beq_iff_eq.mp hb
    refine ⟨i, hi, hws, ?_⟩
    rw [← hp i hws]
    exact hhit
  · rintro ⟨i, hi, hsol, hhit⟩
    have hwa : wa.lifetime.getD i .Permanent = .Solid := by
      have hb : (wa.lifetime.getD i .Permanent == Lifetime.Solid) = true := by
        rw [hbeq i]
        exact beq_iff_eq.mpr hsol
      exact beq_iff_eq.mp hb
    refine ⟨i, hi, hwa, ?_⟩
    rw [hp i hsol]
    exact hhit

theorem isOnBoard_same {w wa : World} (h : boardSame w wa) (pos : Pos) :
    wa.isOnBoard pos = w.isOnBoard pos := by
  unfold World.isOnBoard
  rw [h.1, h.2.1, solidHit_same h]

theorem commitFold_row_length (id : Nat) :
    ∀ (ms : List (Nat × Pos)) (wb : World),
      ((ms.foldl (commitMove id) wb).position.getD id []).length =
        (wb.position.getD id []).length
  | [], _ => rfl
  | im :: ms, wb => by
    rw [show (im :: ms).foldl (commitMove id) wb =
        ms.foldl (commitMove id) (commitMove id wb im) from rfl]
    rw [commitFold_row_length id ms (commitMove id wb im)]
    show ((commitMove id wb im).position.getD id []).length = _
    unfold commitMove
    by_cases hid : id < wb.position.length
    · rw [getD_set_self _ _ _ hid, List.length_set]
    · rw [List.set_eq_of_length_le (by omega)]

theorem commitFold_frame_ne (id : Nat) :
    ∀ (ms : List (Nat × Pos)) (wb : World) (j : Nat), (∀ im ∈ ms, im.1 ≠ j) →
      ((ms.foldl (commitMove id) wb).position.getD id []).getD j Pos.nil =
        (wb.position.getD id []).getD j Pos.nil
  | [], _, _, _ => rfl
  | im :: ms, wb, j, h => by
    rw [show (im :: ms).foldl (commitMove id) wb =
        ms.foldl (commitMove id) (commitMove id wb im) from rfl]
    rw [commitFold_frame_ne id ms (commitMove id wb im) j
      (fun x hx => h x (List.mem_cons_of_mem im hx))]
    show ((commitMove id wb im).position.getD id []).getD j Pos.nil = _
    unfold commitMove
    by_cases hid : id < wb.position.length
    · rw [getD_set_self _ _ _ hid, getD_set_ne _ _ _ (h im (List.mem_cons_self im ms))]
    · rw [List.set_eq_of_length_le (by omega)]

theorem commitFold_write (id : Nat) :
    ∀ (ms : List (Nat × Pos)) (wb : World) (j : Nat) (c : Pos),
      (j, c) ∈ ms → (ms.map Prod.fst).Nodup →
      j < (wb.position.getD id []).length → id < wb.position.length →
      ((ms.foldl (commitMove id) wb).position.getD id []).getD j Pos.nil = c
  | im :: ms, wb, j, c, hm, hn, hj, hid => by
    rw [show (im :: ms).foldl (commitMove id) wb =
        ms.foldl (commitMove id) (commitMove id wb im) from rfl]
    rw [List.map_cons] at hn
    rcases List.mem_cons.mp hm with heq | hmem
    · cases heq
      have hnot : ∀ x ∈ ms, x.1 ≠ j := by
        intro x hx hc
        have hxm : x.1 ∈ List.map Prod.fst ms := List.mem_map_of_mem Prod.fst hx
        rw [hc] at hxm
        exact (List.nodup_cons.mp hn).1 hxm
      rw [commitFold_frame_ne id ms (commitMove id wb (j, c)) j hnot]
      show ((commitMove id wb (j, c)).position.getD id []).getD j Pos.nil = _
      unfold commitMove
      rw [getD_set_self _ _ _ hid]
      exact getD_set_self _ _ _ hj
    · have hj' : j < ((commitMove id wb im).position.getD id []).length := by
        show j < (((wb.position.set id _)).getD id []).length
        rw [getD_set_self _ _ _ hid, List.length_set]
        exact hj
      have hid' : id < (commitMove id wb im).position.length := by
        show id < (wb.position.set id _).length
        rw [List.length_set]
        exact hid
      exact commitFold_write id ms (commitMove id wb im) j c hmem
        (List.nodup_cons.mp hn).2 hj' hid'

theorem moveMoves_fst_nodup (w : World) (dir : Dir) (q : Nat) (ps : List Pos) :
    ((((List.enumFrom 0 ps).filterMap
      (fun ip => (walk w dir q ip.2).map fun c => (ip.1, c))).map Prod.fst)).Nodup := by
  have hpw : ((List.enumFrom 0 ps).filterMap
      (fun ip => (walk w dir q ip.2).map fun c => (ip.1, c))).Pairwise
        (fun a b => a.1 < b.1) := by
    rw [List.pairwise_filterMap]
    refine (enumFrom_fst_lt ps 0).imp ?_
    intro a b hab x hx y hy
    rcases hwa : walk w dir q a.2 with _ | ca
    · rw [hwa] at hx
      cases hx
    · rcases hwb : walk w dir q b.2 with _ | cb
      · rw [hwb] at hy
        cases hy
      · rw [hwa] at hx
        rw [hwb] at hy
        cases hx
        cases hy
        exact hab
  exact List.pairwise_map.mpr (hpw.imp fun h => Nat.ne_of_lt h)

/-- `move_system` on one entity whose walk-and-flag pass produced at least
one successful move: the result is the commit fold applied to the
walk-pass world. -/
theorem moveEntity_commit (wa : World) (i : Nat)
    (hq : (wa.velocity.getD i (0, .None)).1 ≠ 0)
    (hms : ((List.enumFrom 0 (wa.position.getD i [])).foldl (moveWalkStep i (wa.velocity.getD i (0, .None)).2 (wa.velocity.getD i (0, .None)).1) (wa, [])).2 ≠ []) :
    moveEntity wa i = (((List.enumFrom 0 (wa.position.getD i [])).foldl (moveWalkStep i (wa.velocity.getD i (0, .None)).2 (wa.velocity.getD i (0, .None)).1) (wa, [])).2).foldl (commitMove i) (((List.enumFrom 0 (wa.position.getD i [])).foldl (moveWalkStep i (wa.velocity.getD i (0, .None)).2 (wa.velocity.getD i (0, .None)).1) (wa, [])).1) := by
  simp only [moveEntity, List.enum_eq_enumFrom]
  rw [if_neg hq, if_neg (fun hc => hms (List.isEmpty_iff.mp hc))]

/-- `move_system` on one non-bouncing entity whose every cell-walk failed:
the entity is killed. -/
theorem moveEntity_kill (wa : World) (i : Nat)
    (hq : (wa.velocity.getD i (0, .None)).1 ≠ 0)
    (hms : ((List.enumFrom 0 (wa.position.getD i [])).foldl (moveWalkStep i (wa.velocity.getD i (0, .None)).2 (wa.velocity.getD i (0, .None)).1) (wa, [])).2 = [])
    (hb : (((List.enumFrom 0 (wa.position.getD i [])).foldl (moveWalkStep i (wa.velocity.getD i (0, .None)).2 (wa.velocity.getD i (0, .None)).1) (wa, [])).1).bounce.getD i false = false) :
    moveEntity wa i = { ((List.enumFrom 0 (wa.position.getD i [])).foldl (moveWalkStep i (wa.velocity.getD i (0, .None)).2 (wa.velocity.getD i (0, .None)).1) (wa, [])).1 with alive := (((List.enumFrom 0 (wa.position.getD i [])).foldl (moveWalkStep i (wa.velocity.getD i (0, .None)).2 (wa.velocity.getD i (0, .None)).1) (wa, [])).1).alive.set i false } := by
  simp only [moveEntity, List.enum_eq_enumFrom]
  rw [if_neg hq, hms,
    if_pos (show (List.isEmpty ([] : List (Nat × Pos))) = true from rfl),
    if_neg (show ¬((((List.enumFrom 0 (wa.position.getD i [])).foldl (moveWalkStep i (wa.velocity.getD i (0, .None)).2 (wa.velocity.getD i (0, .None)).1) (wa, [])).1).bounce.getD i false = true) from by rw [hb]; simp)]
  rfl

/-- The heart of the C3 invariant: one `move_system` entity pass preserves
board containment.  Every cell of the processed entity is either flagged
invalid (failed walk, bounce) or overwritten by a walked cell that passed
`is_on_board`; other entities keep their rows and the on-board test. -/
theorem moveEntity_contained (wa : World) (i : Nat) (hvs : velStill wa)
    (hC : contained wa) : contained (moveEntity wa i) := by
  have ht := moveEntity_touched wa i
  have hsf : solidFrame wa (moveEntity wa i) := moveEntity_sf (solidFrame_refl wa) hvs i
  intro id halive hexp hns p hp hpi
  rw [isOnBoard_congr hsf]
  by_cases hid : id = i
  case neg =>
    obtain ⟨-, -, h3, h4, -, -, -, -, -, -, -, -, h13, -, h15⟩ := ht
    rw [h13 id hid] at hp
    rw [h15 id hid] at halive
    rw [h4] at hexp
    rw [h3] at hns
    exact hC id halive hexp hns p hp hpi
  case pos =>
    subst hid
    by_cases hq : (wa.velocity.getD id (0, .None)).1 = 0
    · rw [moveEntity_of_qzero wa id hq] at halive hexp hns hp
      exact hC id halive hexp hns p hp hpi
    · by_cases hsol : wa.lifetime.getD id .Permanent = .Solid
      · exact absurd (hvs id hsol) hq
      · obtain ⟨g1, g2, g3, g4, g5⟩ := moveFold_go wa id (wa.velocity.getD id (0, .None)).2 (wa.velocity.getD id (0, .None)).1 hsol
          (wa.position.getD id []) 0 wa [] (rowExcept_refl wa id)
        by_cases hmsnil : ((List.enumFrom 0 (wa.position.getD id [])).foldl (moveWalkStep id (wa.velocity.getD id (0, .None)).2 (wa.velocity.getD id (0, .None)).1) (wa, [])).2 = []
        · by_cases hb : wa.bounce.getD id false = true
          · have hfail : ∀ r ∈ wa.position.getD id [],
                walk wa (wa.velocity.getD id (0, .None)).2 (wa.velocity.getD id (0, .None)).1 r = Option.none := by
              intro r hr
              obtain ⟨j, hj, hgd⟩ := exists_getD_of_mem _ hr
              have hmem := getD_mem_enumFrom (wa.position.getD id []) 0 j hj
              rw [Nat.zero_add] at hmem
              have hnil : (List.enumFrom 0 (wa.position.getD id [])).filterMap
                  (fun ip => (walk wa (wa.velocity.getD id (0, .None)).2 (wa.velocity.getD id (0, .None)).1 ip.2).map fun c => (ip.1, c)) = [] := by
                have hg := g2
                rw [hmsnil, List.nil_append] at hg
                exact hg.symm
              have hthis := List.filterMap_eq_nil.mp hnil _ hmem
              dsimp only at hthis
              rw [hgd] at hthis
              exact Option.map_eq_none'.mp hthis
            have hvlen : id < wa.velocity.length := by
              by_contra hlt
              rw [getD_of_length_le _ _ (by omega)] at hq
              exact hq rfl
            obtain ⟨-, -, hlen, hflag⟩ := moveEntity_bounce wa id hsol hq hb hvlen hfail
            obtain ⟨j, hj, hgd⟩ := exists_getD_of_mem _ hp
            rw [hflag j] at hgd
            rw [← hgd] at hpi
            simp [flagInvalid] at hpi
          · simp only [Bool.not_eq_true] at hb
            have hbf : (((List.enumFrom 0 (wa.position.getD id [])).foldl (moveWalkStep id (wa.velocity.getD id (0, .None)).2 (wa.velocity.getD id (0, .None)).1) (wa, [])).1).bounce.getD id false = false := by
              rw [(rowExcept_fields g1).2.2.1]
              exact hb
            rw [moveEntity_kill wa id hq hmsnil hbf] at halive
            rw [show ({ ((List.enumFrom 0 (wa.position.getD id [])).foldl (moveWalkStep id (wa.velocity.getD id (0, .None)).2 (wa.velocity.getD id (0, .None)).1) (wa, [])).1 with
                alive := (((List.enumFrom 0 (wa.position.getD id [])).foldl (moveWalkStep id (wa.velocity.getD id (0, .None)).2 (wa.velocity.getD id (0, .None)).1) (wa, [])).1).alive.set id false } : World).alive =
              (((List.enumFrom 0 (wa.position.getD id [])).foldl (moveWalkStep id (wa.velocity.getD id (0, .None)).2 (wa.velocity.getD id (0, .None)).1) (wa, [])).1).alive.set id false from rfl] at halive
            rw [getD_set_false] at halive
            cases halive
        · have hME := moveEntity_commit wa id hq hmsnil
          rw [hME] at hp
          have hpspos : id < wa.position.length := by
            by_contra hlt
            apply hmsnil
            rw [g2, List.nil_append, getD_of_length_le wa.position [] (by omega : wa.position.length ≤ id)]
            rfl
          have hw1p : id < (((List.enumFrom 0 (wa.position.getD id [])).foldl (moveWalkStep id (wa.velocity.getD id (0, .None)).2 (wa.velocity.getD id (0, .None)).1) (wa, [])).1).position.length := by
            rw [(rowExcept_fields g1).2.2.2.2.2.2]
            exact hpspos
          obtain ⟨j, hj, hgd⟩ := exists_getD_of_mem _ hp
          have hjlt : j < (wa.position.getD id []).length := by
            rw [commitFold_row_length, g3] at hj
            exact hj
          rcases hwj : walk wa (wa.velocity.getD id (0, .None)).2 (wa.velocity.getD id (0, .None)).1
              ((wa.position.getD id []).getD j Pos.nil) with _ | c
          · have hnotin : ∀ im ∈ ((List.enumFrom 0 (wa.position.getD id [])).foldl (moveWalkStep id (wa.velocity.getD id (0, .None)).2 (wa.velocity.getD id (0, .None)).1) (wa, [])).2, im.1 ≠ j := by
              intro im him hc
              rw [g2, List.nil_append] at him
              obtain ⟨ip, hip, hmap⟩ := List.mem_filterMap.mp him
              rcases hwip : walk wa (wa.velocity.getD id (0, .None)).2 (wa.velocity.getD id (0, .None)).1 ip.2 with _ | cc
              · rw [hwip] at hmap
                cases hmap
              · rw [hwip, Option.map_some'] at hmap
                have him2 : (ip.1, cc) = im := Option.some.inj hmap
                have he := mem_enumFrom_eq (wa.position.getD id []) 0 ip hip
                have hip1 : ip.1 = j := by
                  rw [← him2] at hc
                  exact hc
                rw [he.2.2, Nat.sub_zero, hip1, hwj] at hwip
                cases hwip
            have hflag := (g5 j hjlt).1 hwj
            rw [Nat.zero_add] at hflag
            have hfr := commitFold_frame_ne id (((List.enumFrom 0 (wa.position.getD id [])).foldl (moveWalkStep id (wa.velocity.getD id (0, .None)).2 (wa.velocity.getD id (0, .None)).1) (wa, [])).2) (((List.enumFrom 0 (wa.position.getD id [])).foldl (moveWalkStep id (wa.velocity.getD id (0, .None)).2 (wa.velocity.getD id (0, .None)).1) (wa, [])).1) j hnotin
            rw [hfr, hflag] at hgd
            rw [← hgd] at hpi
            simp [flagInvalid] at hpi
          · have hmem : (j, c) ∈ ((List.enumFrom 0 (wa.position.getD id [])).foldl (moveWalkStep id (wa.velocity.getD id (0, .None)).2 (wa.velocity.getD id (0, .None)).1) (wa, [])).2 := by
              rw [g2, List.nil_append]
              refine List.mem_filterMap.mpr
                ⟨(j, (wa.position.getD id []).getD j Pos.nil), ?_, ?_⟩
              · have hmm := getD_mem_enumFrom (wa.position.getD id []) 0 j hjlt
                rw [Nat.zero_add] at hmm
                exact hmm
              · dsimp only
                rw [hwj]
                rfl
            have hnod : ((((List.enumFrom 0 (wa.position.getD id [])).foldl (moveWalkStep id (wa.velocity.getD id (0, .None)).2 (wa.velocity.getD id (0, .None)).1) (wa, [])).2).map Prod.fst).Nodup := by
              rw [g2, List.nil_append]
              exact moveMoves_fst_nodup wa (wa.velocity.getD id (0, .None)).2 (wa.velocity.getD id (0, .None)).1 (wa.position.getD id [])
            have hwrite := commitFold_write id (((List.enumFrom 0 (wa.position.getD id [])).foldl (moveWalkStep id (wa.velocity.getD id (0, .None)).2 (wa.velocity.getD id (0, .None)).1) (wa, [])).2) (((List.enumFrom 0 (wa.position.getD id [])).foldl (moveWalkStep id (wa.velocity.getD id (0, .None)).2 (wa.velocity.getD id (0, .None)).1) (wa, [])).1) j c hmem hnod
              (by rw [g3]; exact hjlt) hw1p
            rw [hwrite] at hgd
            rw [← hgd]
            exact walk_isOnBoard hq hwj

theorem moveFold_contained : ∀ (l : List Nat) (wa : World),
    velStill wa → contained wa →
    velStill (l.foldl moveEntity wa) ∧ contained (l.foldl moveEntity wa)
  | [], _, hv, hc => ⟨hv, hc⟩
  | i :: l, wa, hv, hc =>
    moveFold_contained l (moveEntity wa i) (moveEntity_velStill hv i)
      (moveEntity_contained wa i hv hc)

theorem moveSystem_contained {w : World} (hv : velStill w) (hc : contained w) :
    velStill (moveSystem w) ∧ contained (moveSystem w) :=
  moveFold_contained (aliveEntities w) w hv hc

theorem ltFrame_refl (w : World) : ltFrame w w :=
  ⟨rfl, rfl, rfl, rfl, rfl, rfl, fun _ => rfl, fun _ h => h⟩

theorem lifetimeStep_ltFrame {w wa : World} (hF : ltFrame w wa) (id : Nat) :
    ltFrame w (lifetimeStep wa id) := by
  obtain ⟨h1, h2, h3, h4, h5, h6, h7, h8⟩ := hF
  unfold lifetimeStep
  split
  · rename_i n hmatch
    split
    · refine ⟨h1, h2, h3, h4, h5, ?_, ?_, h8⟩
      · show (wa.lifetime.set id (.Temporary (n - 1))).length = w.lifetime.length
        rw [List.length_set]
        exact h6
      · intro i
        show ((wa.lifetime.set id (.Temporary (n - 1))).getD i .Permanent ==
          Lifetime.Solid) = _
        by_cases hii : id = i
        · subst hii
          have hlt : id < wa.lifetime.length := by
            by_contra hge
            rw [getD_of_length_le _ _ (by omega)] at hmatch
            cases hmatch
          rw [getD_set_self _ _ _ hlt, ← h7 id, hmatch]
          rw [beq_eq_false_iff_ne.mpr (fun hc => Lifetime.noConfusion hc),
            beq_eq_false_iff_ne.mpr (fun hc => Lifetime.noConfusion hc)]
        · rw [getD_set_ne _ _ _ hii]
          exact h7 i
    · refine ⟨h1, h2, h3, h4, h5, h6, h7, ?_⟩
      intro j hj
      exact h8 j (alive_getD_set_false_le _ _ _ hj)
  · exact ⟨h1, h2, h3, h4, h5, h6, h7, h8⟩

theorem ltFold {w : World} : ∀ (l : List Nat) (wa : World),
    ltFrame w wa → ltFrame w (l.foldl lifetimeStep wa)
  | [], _, h => h
  | i :: l, _, h => ltFold l _ (lifetimeStep_ltFrame h i)

theorem lifetimeSystem_contained {w : World} (hv : velStill w) (hc : contained w) :
    velStill (lifetimeSystem w) ∧ contained (lifetimeSystem w) := by
  have hF : ltFrame w (lifetimeSystem w) := ltFold (aliveEntities w) w (ltFrame_refl w)
  obtain ⟨h1, h2, h3, h4, h5, h6, h7, h8⟩ := hF
  have hbs : boardSame w (lifetimeSystem w) :=
    ⟨h1, h2, h6, h7, fun i _ => by rw [h3]⟩
  constructor
  · intro i hsol
    have hw : w.lifetime.getD i .Permanent = .Solid :=
      beq_iff_eq.mp (by rw [← h7 i]; exact beq_iff_eq.mpr hsol)
    rw [h4]
    exact hv i hw
  · intro id halive hexp hns p hp hpi
    have hnsw : w.lifetime.getD id .Permanent ≠ .Solid := fun hS =>
      hns (beq_iff_eq.mp (by rw [h7 id]; exact beq_iff_eq.mpr hS))
    rw [h5] at hexp
    rw [h3] at hp
    rw [isOnBoard_same hbs]
    exact hc id (h8 id halive) hexp hnsw p hp hpi

theorem killUnshielded_fields (w : World) (id : Nat) :
    (killUnshielded w id).width = w.width ∧ (killUnshielded w id).height = w.height ∧
    (killUnshielded w id).lifetime = w.lifetime ∧
    (killUnshielded w id).position = w.position ∧
    (killUnshielded w id).velocity = w.velocity ∧
    (killUnshielded w id).explode = w.explode ∧
    ∀ j, (killUnshielded w id).alive.getD j false = true →
      w.alive.getD j false = true := by
  unfold killUnshielded
  split
  · exact ⟨rfl, rfl, rfl, rfl, rfl, rfl, fun _ h => h⟩
  · exact ⟨rfl, rfl, rfl, rfl, rfl, rfl, fun j h => alive_getD_set_false_le _ _ _ h⟩

theorem collisionSystem_contained {w : World} (hv : velStill w) (hc : contained w) :
    velStill (collisionSystem w) ∧ contained (collisionSystem w) := by
  unfold collisionSystem
  split
  · exact ⟨hv, hc⟩
  · rename_i id1 id2 heq
    have k1 := killUnshielded_fields w id1
    have k2 := killUnshielded_fields (killUnshielded w id1) id2
    have hsf : solidFrame w (killUnshielded (killUnshielded w id1) id2) :=
      ⟨k2.1.trans k1.1, k2.2.1.trans k1.2.1, k2.2.2.1.trans k1.2.2.1,
        fun i _ => by rw [k2.2.2.2.1, k1.2.2.2.1]⟩
    constructor
    · intro i hsol
      rw [k2.2.2.1, k1.2.2.1] at hsol
      rw [k2.2.2.2.2.1, k1.2.2.2.2.1]
      exact hv i hsol
    · intro id halive hexp hns p hp hpi
      rw [k2.2.2.2.2.2.1, k1.2.2.2.2.2.1] at hexp
      rw [k2.2.2.1, k1.2.2.1] at hns
      rw [k2.2.2.2.1, k1.2.2.2.1] at hp
      rw [isOnBoard_congr hsf]
      exact hc id (k1.2.2.2.2.2.2 id (k2.2.2.2.2.2.2 id halive)) hexp hns p hp hpi

theorem shieldUpkeep_fields (wa : World) (id : Nat) :
    (shieldUpkeep wa id).width = wa.width ∧ (shieldUpkeep wa id).height = wa.height ∧
    (shieldUpkeep wa id).lifetime = wa.lifetime ∧
    (shieldUpkeep wa id).position = wa.position ∧
    (shieldUpkeep wa id).velocity = wa.velocity ∧
    (shieldUpkeep wa id).explode = wa.explode ∧
    (shieldUpkeep wa id).alive = wa.alive := by
  simp only [shieldUpkeep]
  split
  · exact ⟨rfl, rfl, rfl, rfl, rfl, rfl, rfl⟩
  · exact ⟨rfl, rfl, rfl, rfl, rfl, rfl, rfl⟩

theorem upkeepFold_fields : ∀ (l : List Nat) (wa : World),
    ((l.foldl shieldUpkeep wa).width = wa.width ∧
      (l.foldl shieldUpkeep wa).height = wa.height) ∧
    (l.foldl shieldUpkeep wa).lifetime = wa.lifetime ∧
    (l.foldl shieldUpkeep wa).position = wa.position ∧
    (l.foldl shieldUpkeep wa).velocity = wa.velocity ∧
    (l.foldl shieldUpkeep wa).explode = wa.explode ∧
    (l.foldl shieldUpkeep wa).alive = wa.alive
  | [], _ => ⟨⟨rfl, rfl⟩, rfl, rfl, rfl, rfl, rfl⟩
  | i :: l, wa => by
    have ih := upkeepFold_fields l (shieldUpkeep wa i)
    have hs := shieldUpkeep_fields wa i
    exact ⟨⟨ih.1.1.trans hs.1, ih.1.2.trans hs.2.1⟩, ih.2.1.trans hs.2.2.1,
      ih.2.2.1.trans hs.2.2.2.1, ih.2.2.2.1.trans hs.2.2.2.2.1,
      ih.2.2.2.2.1.trans hs.2.2.2.2.2.1, ih.2.2.2.2.2.trans hs.2.2.2.2.2.2⟩

theorem energySystem_contained {w : World} (hv : velStill w) (hc : contained w) :
    velStill (energySystem w) ∧ contained (energySystem w) := by
  have hE : energySystem w =
      ((List.range w.shield.length).filter fun i => w.shield.getD i false).foldl
        shieldUpkeep { w with
          energy := w.energy.map fun n => if n < MAX_ENERGY then n + 1 else n } := rfl
  have hf := upkeepFold_fields
    ((List.range w.shield.length).filter fun i => w.shield.getD i false)
    { w with energy := w.energy.map fun n => if n < MAX_ENERGY then n + 1 else n }
  rw [← hE] at hf
  obtain ⟨⟨h1, h2⟩, h3, h4, h5, h6, h7⟩ := hf
  have hsf : solidFrame w (energySystem w) := ⟨h1, h2, h3, fun i _ => by rw [h4]⟩
  constructor
  · intro i hsol
    rw [h3] at hsol
    rw [h5]
    exact hv i hsol
  · intro id halive hexp hns p hp hpi
    rw [h7] at halive
    rw [h6] at hexp
    rw [h3] at hns
    rw [h4] at hp
    rw [isOnBoard_congr hsf]
    exact hc id halive hexp hns p hp hpi

theorem exFrame_refl (w : World) : exFrame w w :=
  ⟨rfl, rfl, rfl, rfl, rfl, fun _ _ => rfl, fun _ h => ⟨h, rfl⟩, fun i => Or.inr rfl⟩

theorem explodeStep_alive (wa : World) (id : Nat) :
    (explodeStep wa id).alive = wa.alive := rfl

theorem explodeStep_exFrame {w wa : World} (hF : exFrame w wa) {id : Nat}
    (hid : id < w.explode.length) (hns : w.lifetime.getD id .Permanent ≠ .Solid) :
    exFrame w (explodeStep wa id) := by
  obtain ⟨h1, h2, h3, h4, h5, h6, h7, h8⟩ := hF
  have hlen := explodeStep_lengths wa id
  refine ⟨h1, h2, (explodeStep_lifetime wa id).trans h3,
    (explodeStep_alive wa id).trans h4, hlen.1.trans h5, ?_, ?_, ?_⟩
  · intro i hi
    have hne : id ≠ i := fun hcn => hns (hcn ▸ hi)
    rw [(explodeStep_frame wa hne).2.1]
    exact h6 i hi
  · intro i hival
    by_cases hii : id = i
    · subst hii
      exfalso
      have hset : (explodeStep wa id).explode.getD id (false, false) =
          ((wa.explode.getD id (false, false)).1, true) := by
        simp only [explodeStep]
        exact getD_set_self _ _ _ (by omega)
      rw [hset] at hival
      cases hival
    · rw [(explodeStep_frame wa hii).1] at hival
      obtain ⟨hw, hrow⟩ := h7 i hival
      exact ⟨hw, by rw [(explodeStep_frame wa hii).2.1]; exact hrow⟩
  · intro i
    by_cases hii : id = i
    · subst hii
      left
      by_cases hlt : id < wa.velocity.length
      · show ((wa.velocity.set id (0, .None)).getD id (0, .None)).1 = 0
        rw [getD_set_self _ _ _ hlt]
      · show ((wa.velocity.set id (0, .None)).getD id (0, .None)).1 = 0
        rw [List.set_eq_of_length_le (by omega), getD_of_length_le _ _ (by omega)]
    · rcases h8 i with h | h
      · left
        rw [(explodeStep_frame wa hii).2.2]
        exact h
      · right
        rw [(explodeStep_frame wa hii).2.2]
        exact h

theorem exFold {w : World} : ∀ (l : List Nat) (wa : World),
    (∀ id ∈ l, id < w.explode.length ∧ w.lifetime.getD id .Permanent ≠ .Solid) →
    exFrame w wa → exFrame w (l.foldl explodeStep wa)
  | [], _, _, h => h
  | i :: l, wa, hl, h =>
    exFold l _ (fun id hid => hl id (List.mem_cons_of_mem i hid))
      (explodeStep_exFrame h (hl i (List.mem_cons_self i l)).1
        (hl i (List.mem_cons_self i l)).2)

theorem explodeSystem_contained {w : World} (hv : velStill w) (hc : contained w) :
    velStill (explodeSystem w) ∧ contained (explodeSystem w) := by
  have hE : explodeSystem w =
      (((List.range w.explode.length).filter fun id =>
          (w.explode.getD id (false, false)).1
            && !(w.explode.getD id (false, false)).2).filter
        fun id =>
          match w.lifetime.getD id .Permanent with
          | .Temporary n => n ≤ EXPLODE_DURATION
          | _ => false).foldl explodeStep w := rfl
  have hmem : ∀ id ∈ ((List.range w.explode.length).filter fun id =>
      (w.explode.getD id (false, false)).1
        && !(w.explode.getD id (false, false)).2).filter
      (fun id =>
        match w.lifetime.getD id .Permanent with
        | .Temporary n => n ≤ EXPLODE_DURATION
        | _ => false),
      id < w.explode.length ∧ w.lifetime.getD id .Permanent ≠ .Solid := by
    intro id hid
    obtain ⟨hid1, hcond⟩ := List.mem_filter.mp hid
    obtain ⟨hid2, -⟩ := List.mem_filter.mp hid1
    refine ⟨List.mem_range.mp hid2, ?_⟩
    intro hS
    rw [hS] at hcond
    simp at hcond
  have hF : exFrame w (explodeSystem w) := by
    rw [hE]
    exact exFold _ w hmem (exFrame_refl w)
  obtain ⟨h1, h2, h3, h4, h5, h6, h7, h8⟩ := hF
  constructor
  · intro i hsol
    rw [h3] at hsol
    rcases h8 i with h | h
    · exact h
    · rw [h]
      exact hv i hsol
  · intro id halive hexp hns p hp hpi
    rw [h4] at halive
    obtain ⟨hexpw, hrow⟩ := h7 id hexp
    rw [h3] at hns
    rw [hrow] at hp
    have hsf : solidFrame w (explodeSystem w) := ⟨h1, h2, h3, h6⟩
    rw [isOnBoard_congr hsf]
    exact hc id halive hexpw hns p hp hpi

theorem tick_contained {w : World} (ec : Nat) (hv : velStill w) (hc : contained w) :
    velStill (tick w ec).1 ∧ contained (tick w ec).1 := by
  have h1 := moveSystem_contained hv hc
  have h2 := lifetimeSystem_contained h1.1 h1.2
  have h3 := collisionSystem_contained h2.1 h2.2
  have h4 : velStill (if ec = 0 then
        energySystem (collisionSystem (lifetimeSystem (moveSystem w)))
      else collisionSystem (lifetimeSystem (moveSystem w))) ∧
      contained (if ec = 0 then
        energySystem (collisionSystem (lifetimeSystem (moveSystem w)))
      else collisionSystem (lifetimeSystem (moveSystem w))) := by
    split
    · exact energySystem_contained h3.1 h3.2
    · exact h3
  exact explodeSystem_contained h4.1 h4.2

/-- C3 counterexample: the claim fails already at the round-start state
itself (which is trivially reachable): the first obstacle bar (entity 2 of
the 30×12 world) is alive and not exploding, but its single cell (15, 4)
does not satisfy `is_on_board`, because `is_on_board` rejects any cell that
coincides with a `Solid` entity's cell — including the probed entity's own
cell. -/
theorem c3_counterexample :
    Reach (roundStart (initialWorld 30 12), 0) (roundStart (initialWorld 30 12), 0) ∧
    (roundStart (initialWorld 30 12)).alive.getD 2 false = true ∧
    ((roundStart (initialWorld 30 12)).explode.getD 2 (false, false)).2 = false ∧
    (⟨15, 4, false⟩ : Pos) ∈ (roundStart (initialWorld 30 12)).position.getD 2 [] ∧
    (roundStart (initialWorld 30 12)).isOnBoard ⟨15, 4, false⟩ = false :=
  ⟨Reach.refl, by decide, by decide, by decide, by decide⟩

/-- C3 (amended): from any start state whose `Solid` entities are static
(`solidsStill`) and which satisfies board containment for the non-`Solid`
entities (`cellsContained`) — as the constructed round-start worlds do —
every state reachable by whole pipeline ticks satisfies both: every alive,
non-exploding, non-`Solid` entity has each of its cells either flagged
invalid by a failed move or passing `is_on_board`.  `Solid` entities must
be excluded (they fail `is_on_board` at their own cells, see the
counterexample), and cells flagged invalid by a bounced move must be
excepted (see C4). -/
theorem c3_board_containment (w : World) (ec : Nat)
    (hss : solidsStill w = true) (hcc : cellsContained w = true) :
    ∀ t, Reach (w, ec) t → cellsContained t.1 = true ∧ solidsStill t.1 = true := by
  have hgen : ∀ t, Reach (w, ec) t → velStill t.1 ∧ contained t.1 := by
    intro t hr
    induction hr with
    | refl => exact ⟨velStill_of_solidsStill hss, contained_of_cellsContained hcc⟩
    | @step t' hr ih => exact tick_contained t'.2 ih.1 ih.2
  intro t hr
  obtain ⟨hv, hcon⟩ := hgen t hr
  exact ⟨cellsContained_of_contained hcon, solidsStill_of_velStill hv⟩

/-- Witness for C3 (amended): the concrete 30×12 round start satisfies the
two start conditions, and the theorem then delivers them for the state one
whole tick later. -/
theorem c3_board_containment_witness :
    cellsContained (tickS (roundStart (initialWorld 30 12), 0)).1 = true ∧
    solidsStill (tickS (roundStart (initialWorld 30 12), 0)).1 = true :=
  c3_board_containment (roundStart (initialWorld 30 12)) 0 (by decide) (by decide)
    (tickS (roundStart (initialWorld 30 12), 0)) (Reach.step Reach.refl)

end RustConsoleGame
